import Mathlib

set_option maxRecDepth 100000

/-!
Verification development for the startup-curator application (`src/app.py`).

The Python source is shallowly embedded: Python `str` values become `String`
(or `List Char` where character-level reasoning is needed), Python dictionaries
decoded from JSON become the inductive `JVal`, fallible code returns `Option`
or `Except`, and Streamlit rendering is modelled as the construction of pure
"render output" records.  Python string primitives (`str.strip`,
`str.splitlines`, `"\n".join`, `str.startswith`) are modelled faithfully,
including the full set of line-break and whitespace characters Python uses.
`json.loads` is modelled by an executable strict JSON parser and `json.dumps`
style minified encoding by an executable serializer (ASCII-escaping, as with
the default `ensure_ascii=True`).
-/

/-! ## Python string primitives -/

/-- Characters on which Python `str.splitlines` splits. -/
def pyBreak (c : Char) : Bool :=
  c.toNat = 10 ∨ c.toNat = 11 ∨ c.toNat = 12 ∨ c.toNat = 13 ∨ c.toNat = 28 ∨
  c.toNat = 29 ∨ c.toNat = 30 ∨ c.toNat = 133 ∨ c.toNat = 8232 ∨ c.toNat = 8233

/-- Characters stripped by Python `str.strip()` (Unicode whitespace). -/
def pyWs (c : Char) : Bool :=
  c.toNat = 9 ∨ c.toNat = 10 ∨ c.toNat = 11 ∨ c.toNat = 12 ∨ c.toNat = 13 ∨
  c.toNat = 28 ∨ c.toNat = 29 ∨ c.toNat = 30 ∨ c.toNat = 31 ∨ c.toNat = 32 ∨
  c.toNat = 133 ∨ c.toNat = 160 ∨ c.toNat = 5760 ∨
  (8192 ≤ c.toNat ∧ c.toNat ≤ 8202) ∨ c.toNat = 8232 ∨ c.toNat = 8233 ∨
  c.toNat = 8239 ∨ c.toNat = 8287 ∨ c.toNat = 12288

/-- Python `str.strip()` on the character-list representation. -/
def pyStrip (s : List Char) : List Char :=
  ((s.dropWhile pyWs).reverse.dropWhile pyWs).reverse

/-- Python `str.strip()` on `String`. -/
def pyStripS (s : String) : String :=
  String.mk (pyStrip s.data)

/-- Python `str.splitlines()`: split on the Python line-break characters,
with `"\r\n"` counting as a single break and no trailing empty line. -/
def splitlines : List Char → List (List Char)
  | [] => []
  | '\r' :: '\n' :: rest => [] :: splitlines rest
  | '\r' :: rest => [] :: splitlines rest
  | c :: rest =>
      if pyBreak c then [] :: splitlines rest
      else
        match splitlines rest with
        | [] => [[c]]
        | l :: ls => (c :: l) :: ls

/-- Split on `'\n'` alone, keeping every field (including trailing empty
ones); the helper through which fence-stripping of a multi-line body is
analysed. -/
def splitNL : List Char → List (List Char)
  | [] => [[]]
  | '\n' :: r => [] :: splitNL r
  | c :: r =>
      match splitNL r with
      | [] => [[c]]
      | l :: ls => (c :: l) :: ls

/-- Python `"\n".join(lines)`. -/
def joinNL : List (List Char) → List Char
  | [] => []
  | [l] => l
  | l :: ls => l ++ '\n' :: joinNL ls

/-! ## The JSON data model

`JVal` models Python values decoded by `json.loads`: JSON numbers are kept
in their decimal syntactic form (sign, integer digits, fraction digits,
optional exponent), which models the decimal literal that Python turns into
an `int`/`float`; `nanV`/`infV` model the non-finite constants `NaN`,
`Infinity` and `-Infinity` that `json.loads` accepts by default. -/

inductive JVal where
  | null : JVal
  | bool (b : Bool) : JVal
  | num (neg : Bool) (ip : List Char) (fp : List Char) (ex : Option (Bool × List Char)) : JVal
  | str (s : String) : JVal
  | arr (l : List JVal) : JVal
  | obj (l : List (String × JVal)) : JVal
  | nanV : JVal
  | infV (neg : Bool) : JVal

/-- Decimal digit test. -/
def isDigit (c : Char) : Bool := 48 ≤ c.toNat ∧ c.toNat ≤ 57

/-- Numeric value of a decimal digit string (most significant first). -/
def digitsToNat (l : List Char) : Nat :=
  l.foldl (fun acc c => acc * 10 + (c.toNat - 48)) 0

/-- Python truthiness of a decoded JSON value (`bool(x)`), as used by the
caller's `if not data:` test.  A number is falsy exactly when its mantissa
digits are all zero. -/
def jTruthy : JVal → Bool
  | .null => false
  | .bool b => b
  | .num _ ip fp _ => decide (digitsToNat (ip ++ fp) ≠ 0)
  | .str s => decide (s ≠ "")
  | .arr l => !l.isEmpty
  | .obj l => !l.isEmpty
  | .nanV => true
  | .infV _ => true

/-! ## The JSON serializer (minified, `ensure_ascii` style) -/

/-- Lowercase hexadecimal digit. -/
def hexDigit (n : Nat) : Char :=
  Char.ofNat (if n < 10 then 48 + n else 87 + n)

/-- Four-digit lowercase hexadecimal rendering (for `\uXXXX` escapes). -/
def toHex4 (n : Nat) : List Char :=
  [hexDigit (n / 4096 % 16), hexDigit (n / 256 % 16), hexDigit (n / 16 % 16), hexDigit (n % 16)]

/-- JSON escaping of one character, as the default `json.dumps` does it:
short escapes for the common control characters, `\u00xx` for the other
control characters, ASCII printable characters verbatim, and `\uXXXX`
(with surrogate pairs above the BMP) for everything non-ASCII. -/
def escChar (c : Char) : List Char :=
  if c = '"' then ['\\', '"']
  else if c = '\\' then ['\\', '\\']
  else if c.toNat = 8 then ['\\', 'b']
  else if c.toNat = 9 then ['\\', 't']
  else if c.toNat = 10 then ['\\', 'n']
  else if c.toNat = 12 then ['\\', 'f']
  else if c.toNat = 13 then ['\\', 'r']
  else if c.toNat < 32 then '\\' :: 'u' :: toHex4 c.toNat
  else if c.toNat < 127 then [c]
  else if c.toNat < 65536 then '\\' :: 'u' :: toHex4 c.toNat
  else
    ('\\' :: 'u' :: toHex4 (55296 + (c.toNat - 65536) / 1024)) ++
    ('\\' :: 'u' :: toHex4 (56320 + (c.toNat - 65536) % 1024))

/-- Serialized form of a JSON string (with the surrounding quotes). -/
def serStr (s : String) : List Char :=
  '"' :: (s.data.flatMap escChar ++ ['"'])

/-- Serialized fraction part of a JSON number. -/
def serFrac (fp : List Char) : List Char :=
  if fp.isEmpty then [] else '.' :: fp

/-- Serialized exponent part of a JSON number. -/
def serExp : Option (Bool × List Char) → List Char
  | none => []
  | some (en, ed) => 'e' :: ((if en then ['-'] else []) ++ ed)

/-- Serialized form of the digits of a JSON number. -/
def serNumBody (neg : Bool) (ip fp : List Char) (ex : Option (Bool × List Char)) : List Char :=
  (if neg then ['-'] else []) ++ (ip ++ (serFrac fp ++ serExp ex))

mutual

/-- Minified JSON serialization of a `JVal` (separators `","`/`":"`, no
whitespace), modelling the minified output format the prompt demands. -/
def serialize : JVal → List Char
  | .null => "null".data
  | .bool true => "true".data
  | .bool false => "false".data
  | .num neg ip fp ex => serNumBody neg ip fp ex
  | .str s => serStr s
  | .arr l => '[' :: serArrBody l
  | .obj l => '\x7b' :: serObjBody l
  | .nanV => "NaN".data
  | .infV false => "Infinity".data
  | .infV true => '-' :: "Infinity".data

/-- Array contents following the opening bracket. -/
def serArrBody : List JVal → List Char
  | [] => [']']
  | v :: t => serialize v ++ serArrTail t

/-- Array contents following a serialized element. -/
def serArrTail : List JVal → List Char
  | [] => [']']
  | v :: t => ',' :: (serialize v ++ serArrTail t)

/-- Object contents following the opening brace. -/
def serObjBody : List (String × JVal) → List Char
  | [] => ['\x7d']
  | (k, v) :: t => serStr k ++ ':' :: (serialize v ++ serObjTail t)

/-- Object contents following a serialized member. -/
def serObjTail : List (String × JVal) → List Char
  | [] => ['\x7d']
  | (k, v) :: t => ',' :: (serStr k ++ ':' :: (serialize v ++ serObjTail t))

end

/-! ## Well-formedness of a `JVal` as a serializable document -/

/-- Distinctness of the keys of an object member list (a faithful model of a
Python dict has no duplicate keys). -/
def keysDistinct : List (String × JVal) → Bool
  | [] => true
  | (k, _) :: t => t.all (fun p => decide (p.1 ≠ k)) && keysDistinct t

/-- Well-formedness of the syntactic number representation: a strict JSON
integer part (a lone `0` or a nonzero leading digit), digit-only fraction
and exponent parts, a nonempty exponent when present. -/
def numValid (ip fp : List Char) (ex : Option (Bool × List Char)) : Bool :=
  (ip = ['0'] ∨ (ip ≠ [] ∧ ip.all isDigit ∧ ip.head? ≠ some '0')) &&
  fp.all isDigit &&
  (match ex with
   | none => true
   | some (_, ed) => decide (ed ≠ []) && ed.all isDigit)

mutual

/-- A `JVal` that serializes to valid JSON text and models a Python dict
faithfully (valid number syntax, distinct object keys). -/
def validJ : JVal → Bool
  | .null => true
  | .bool _ => true
  | .num _ ip fp ex => numValid ip fp ex
  | .str _ => true
  | .arr l => validL l
  | .obj l => keysDistinct l && validM l
  | .nanV => true
  | .infV _ => true

/-- Validity of a list of array elements. -/
def validL : List JVal → Bool
  | [] => true
  | v :: t => validJ v && validL t

/-- Validity of a list of object members. -/
def validM : List (String × JVal) → Bool
  | [] => true
  | (_, v) :: t => validJ v && validM t

end

/-! ## The strict JSON parser (model of `json.loads`) -/

/-- JSON structural whitespace (`space`, `tab`, `newline`, `carriage return`). -/
def jsonWs (c : Char) : Bool :=
  c.toNat = 32 ∨ c.toNat = 9 ∨ c.toNat = 10 ∨ c.toNat = 13

/-- Skip JSON structural whitespace. -/
def skipWs (s : List Char) : List Char := s.dropWhile jsonWs

/-- Value of a hexadecimal digit character, if it is one. -/
def hexVal (c : Char) : Option Nat :=
  if 48 ≤ c.toNat ∧ c.toNat ≤ 57 then some (c.toNat - 48)
  else if 97 ≤ c.toNat ∧ c.toNat ≤ 102 then some (c.toNat - 87)
  else if 65 ≤ c.toNat ∧ c.toNat ≤ 70 then some (c.toNat - 55)
  else none

/-- Parse the body of a JSON string after the opening quote, returning the
decoded characters and the input after the closing quote.  Raw control
characters are rejected (strict mode), escapes are decoded, and `\uXXXX`
surrogate pairs are combined.  (A lone surrogate escape, which Python would
keep as a lone-surrogate `str`, has no `Char` counterpart and is rejected.) -/
def parseStrBody : List Char → Option (List Char × List Char)
  | [] => none
  | '"' :: r => some ([], r)
  | '\\' :: '"' :: r => (parseStrBody r).map (fun p => ('"' :: p.1, p.2))
  | '\\' :: '\\' :: r => (parseStrBody r).map (fun p => ('\\' :: p.1, p.2))
  | '\\' :: '/' :: r => (parseStrBody r).map (fun p => ('/' :: p.1, p.2))
  | '\\' :: 'b' :: r => (parseStrBody r).map (fun p => ('\x08' :: p.1, p.2))
  | '\\' :: 'f' :: r => (parseStrBody r).map (fun p => ('\x0c' :: p.1, p.2))
  | '\\' :: 'n' :: r => (parseStrBody r).map (fun p => ('\n' :: p.1, p.2))
  | '\\' :: 'r' :: r => (parseStrBody r).map (fun p => ('\x0d' :: p.1, p.2))
  | '\\' :: 't' :: r => (parseStrBody r).map (fun p => ('\t' :: p.1, p.2))
  | '\\' :: 'u' :: a :: b :: c :: d :: r =>
      match hexVal a, hexVal b, hexVal c, hexVal d with
      | some ha, some hb, some hc, some hd =>
        let v := ha * 4096 + hb * 256 + hc * 16 + hd
        if 55296 ≤ v ∧ v ≤ 56319 then
          match r with
          | '\\' :: 'u' :: a2 :: b2 :: c2 :: d2 :: r2 =>
            match hexVal a2, hexVal b2, hexVal c2, hexVal d2 with
            | some ha2, some hb2, some hc2, some hd2 =>
              let w := ha2 * 4096 + hb2 * 256 + hc2 * 16 + hd2
              if 56320 ≤ w ∧ w ≤ 57343 then
                (parseStrBody r2).map
                  (fun p => (Char.ofNat (65536 + (v - 55296) * 1024 + (w - 56320)) :: p.1, p.2))
              else none
            | _, _, _, _ => none
          | _ => none
        else if 56320 ≤ v ∧ v ≤ 57343 then none
        else (parseStrBody r).map (fun p => (Char.ofNat v :: p.1, p.2))
      | _, _, _, _ => none
  | '\\' :: _ => none
  | c :: r => if c.toNat < 32 then none else (parseStrBody r).map (fun p => (c :: p.1, p.2))

/-- Strict JSON integer part: a lone `0`, or a nonzero digit followed by
digits. -/
def parseIntDigits : List Char → Option (List Char × List Char)
  | [] => none
  | '0' :: r => some (['0'], r)
  | c :: r =>
      if isDigit c then some (c :: r.takeWhile isDigit, r.dropWhile isDigit)
      else none

/-- Optional fraction part: a dot followed by one or more digits; anything
else (including a dot not followed by a digit) is left unconsumed, as with
the optional group of Python's `NUMBER_RE`. -/
def parseFrac (s : List Char) : List Char × List Char :=
  match s with
  | '.' :: r =>
      let ds := r.takeWhile isDigit
      if ds.isEmpty then ([], s) else (ds, r.dropWhile isDigit)
  | _ => ([], s)

/-- Optional exponent part: `e`/`E`, an optional sign, one or more digits;
an incomplete exponent is left unconsumed. -/
def parseExp (s : List Char) : Option (Bool × List Char) × List Char :=
  match s with
  | [] => (none, s)
  | c :: r =>
      if c = 'e' ∨ c = 'E' then
        match r with
        | '-' :: r2 =>
            let ds := r2.takeWhile isDigit
            if ds.isEmpty then (none, s) else (some (true, ds), r2.dropWhile isDigit)
        | '+' :: r2 =>
            let ds := r2.takeWhile isDigit
            if ds.isEmpty then (none, s) else (some (false, ds), r2.dropWhile isDigit)
        | _ =>
            let ds := r.takeWhile isDigit
            if ds.isEmpty then (none, s) else (some (false, ds), r.dropWhile isDigit)
      else (none, s)

/-- Parse a JSON number whose optional minus sign has already been consumed. -/
def parseNum (neg : Bool) (s : List Char) : Option (JVal × List Char) :=
  match parseIntDigits s with
  | none => none
  | some (ip, r1) =>
      let fr := parseFrac r1
      let exr := parseExp fr.2
      some (.num neg ip fr.1 exr.1, exr.2)

mutual

/-- Parse one JSON value (after skipping leading whitespace).  The `Nat`
argument is recursion fuel; `jsonLoads` supplies enough for any input. -/
def parseVal : Nat → List Char → Option (JVal × List Char)
  | 0, _ => none
  | f + 1, s =>
      match skipWs s with
      | 'n' :: 'u' :: 'l' :: 'l' :: r => some (.null, r)
      | 't' :: 'r' :: 'u' :: 'e' :: r => some (.bool true, r)
      | 'f' :: 'a' :: 'l' :: 's' :: 'e' :: r => some (.bool false, r)
      | 'N' :: 'a' :: 'N' :: r => some (.nanV, r)
      | 'I' :: 'n' :: 'f' :: 'i' :: 'n' :: 'i' :: 't' :: 'y' :: r => some (.infV false, r)
      | '-' :: 'I' :: 'n' :: 'f' :: 'i' :: 'n' :: 'i' :: 't' :: 'y' :: r => some (.infV true, r)
      | '"' :: r => (parseStrBody r).map (fun p => (.str (String.mk p.1), p.2))
      | '[' :: r => (parseArr f r).map (fun p => (.arr p.1, p.2))
      | '\x7b' :: r => (parseObj f r).map (fun p => (.obj p.1, p.2))
      | '-' :: r => parseNum true r
      | s' => parseNum false s'

/-- Parse array contents after the opening bracket. -/
def parseArr : Nat → List Char → Option (List JVal × List Char)
  | 0, _ => none
  | f + 1, s =>
      match skipWs s with
      | ']' :: r => some ([], r)
      | s' =>
          match parseVal f s' with
          | none => none
          | some (v, r1) => (parseArrTail f r1).map (fun p => (v :: p.1, p.2))

/-- Parse the rest of an array after a parsed element. -/
def parseArrTail : Nat → List Char → Option (List JVal × List Char)
  | 0, _ => none
  | f + 1, s =>
      match skipWs s with
      | ']' :: r => some ([], r)
      | ',' :: r =>
          match parseVal f r with
          | none => none
          | some (v, r1) => (parseArrTail f r1).map (fun p => (v :: p.1, p.2))
      | _ => none

/-- Parse object contents after the opening brace. -/
def parseObj : Nat → List Char → Option (List (String × JVal) × List Char)
  | 0, _ => none
  | f + 1, s =>
      match skipWs s with
      | '\x7d' :: r => some ([], r)
      | '"' :: r =>
          match parseStrBody r with
          | none => none
          | some (k, r1) =>
              match skipWs r1 with
              | ':' :: r2 =>
                  match parseVal f r2 with
                  | none => none
                  | some (v, r3) =>
                      (parseObjTail f r3).map (fun p => ((String.mk k, v) :: p.1, p.2))
              | _ => none
      | _ => none

/-- Parse the rest of an object after a parsed member. -/
def parseObjTail : Nat → List Char → Option (List (String × JVal) × List Char)
  | 0, _ => none
  | f + 1, s =>
      match skipWs s with
      | '\x7d' :: r => some ([], r)
      | ',' :: r =>
          match skipWs r with
          | '"' :: r1 =>
              match parseStrBody r1 with
              | none => none
              | some (k, r2) =>
                  match skipWs r2 with
                  | ':' :: r3 =>
                      match parseVal f r3 with
                      | none => none
                      | some (v, r4) =>
                          (parseObjTail f r4).map (fun p => ((String.mk k, v) :: p.1, p.2))
                  | _ => none
          | _ => none
      | _ => none

end

/-- Model of `json.loads`: parse one JSON value and require that only
whitespace follows it ("Extra data" otherwise).  The fuel `2·|s| + 2`
exceeds the recursion any accepting parse of `s` can perform. -/
def jsonLoads (s : List Char) : Option JVal :=
  match parseVal (2 * s.length + 2) s with
  | none => none
  | some (v, rest) => if (skipWs rest).isEmpty then some v else none

/-! ## The Response Normalizer (`clean_json_text`, `parse_json_response`) -/

/-- Model of `clean_json_text` (src/app.py lines 116-124): strip, remove one
leading/trailing Markdown fence if the stripped text starts with three
backticks and its last line (stripped) also starts with three backticks,
then strip again. -/
def cleanFence (t : List Char) : List Char :=
  if "```".data.isPrefixOf t then
    if 2 ≤ (splitlines t).length ∧
        "```".data.isPrefixOf (pyStrip ((splitlines t).getLastD [])) then
      joinNL (((splitlines t).drop 1).dropLast)
    else t
  else t

def cleanCore (text : List Char) : List Char :=
  pyStrip (cleanFence (pyStrip text))

/-- `clean_json_text` on `String` (src/app.py lines 116-124). -/
def clean_json_text (text : String) : String :=
  String.mk (cleanCore text.data)

/-- The backtick character. -/
def bq : Char := Char.ofNat 96

/-- Model of `parse_json_response` (src/app.py lines 140-145): clean the
text, then strict-JSON-decode it; any decode failure becomes `none`
(the Python function catches every exception and returns `None`). -/
def parse_json_response (text : String) : Option JVal :=
  jsonLoads (cleanCore text.data)

/-! ## The Prompt Builder (`build_user_prompt`)

The Python function receives two dicts; in `main` every field is a string,
and a missing key (`None`) and the empty string are both falsy in the
`d.get(k) or default` idiom, so both are modelled by the empty string. -/

/-- The candidate profile record (src/app.py lines 257-264). -/
structure Profile where
  name : String
  headline : String
  skills : String
  interests : String
  values : String
  links : String

/-- The preferences record (src/app.py lines 266-275). -/
structure Prefs where
  sectors : String
  stage : String
  team_size : String
  location : String
  oss_importance : String
  other : String
  exclude : String
  geo : String

/-- Python `v or default` for a string-or-missing field: the default is used
exactly when the field is missing or empty. -/
def py_or (v d : String) : String := if v = "" then d else v

/-- Python `repr` quote selection for a string: single quotes unless the
string contains a single quote and no double quote. -/
def pyReprQuote (s : String) : Char :=
  if s.data.contains '\x27' ∧ ¬ s.data.contains '"' then '"' else '\x27'

/-- Python `repr` escaping of one character under the chosen quote. -/
def pyEscRepr (q c : Char) : List Char :=
  if c = '\\' then ['\\', '\\']
  else if c = q then ['\\', q]
  else if c.toNat = 10 then ['\\', 'n']
  else if c.toNat = 13 then ['\\', 'r']
  else if c.toNat = 9 then ['\\', 't']
  else if c.toNat < 32 ∨ c.toNat = 127 then ['\\', 'x', hexDigit (c.toNat / 16), hexDigit (c.toNat % 16)]
  else [c]

/-- Python `repr` of a string (as rendered inside `str(list)`). -/
def pyStrRepr (s : String) : String :=
  let q := pyReprQuote s
  String.mk (q :: (s.data.flatMap (pyEscRepr q) ++ [q]))

/-- Python `str` of a list of strings, as an f-string renders
`{provided_companies}`. -/
def pyListRepr (l : List String) : String :=
  "[" ++ String.intercalate ", " (l.map pyStrRepr) ++ "]"

/-- Concatenation of a list of strings in order. -/
def concatAll : List String → String
  | [] => ""
  | s :: t => s ++ concatAll t

/-- The f-string of `build_user_prompt` (src/app.py lines 28-112), split at
the substitution points into a list of segments whose concatenation is the
exact prompt text before the final `.strip()`. -/
def promptSegs (profile : Profile) (prefs : Prefs) (provided_companies : List String)
    (top_n : Nat) : List String :=
  ["You are a startup-curation research agent.\n\nTask:\nCurate a list of high-potential startups to apply to, focusing on:\n- Core products and what problems they solve\n- Founders’ mentality and culture signals\n- Alignment with the candidate’s interests and skills\n- Bonus points for open-source involvement (products, tooling, or contributions)\n\nInput:\n- Candidate Profile:\n  - Name: ",
   py_or profile.name "N/A",
   "\n  - Headline/Role: ",
   py_or profile.headline "N/A",
   "\n  - Skills/Tech: ",
   py_or profile.skills "N/A",
   "\n  - Interests/Theses: ",
   py_or profile.interests "N/A",
   "\n  - Values/Culture: ",
   py_or profile.values "N/A",
   "\n  - Notable Links (GitHub/Portfolio/LinkedIn): ",
   py_or profile.links "N/A",
   "\n\n- Preferences/Filters:\n  - Sectors/Problem Areas: ",
   py_or prefs.sectors "Any",
   "\n  - Stage Preference: ",
   py_or prefs.stage "Any",
   "\n  - Team Size Range: ",
   py_or prefs.team_size "Any",
   "\n  - Location/Remote: ",
   py_or prefs.location "Any",
   "\n  - Open-Source Importance: ",
   py_or prefs.oss_importance "Neutral",
   "\n  - Other Constraints: ",
   py_or prefs.other "None",
   "\n  - Exclude Companies: ",
   py_or prefs.exclude "None",
   "\n  - Geographic Focus: ",
   py_or prefs.geo "Any",
   "\n\n- Provided companies to vet (optional):\n  ",
   (if provided_companies = [] then "None" else pyListRepr provided_companies),
   "\n\nOutput requirements:\n- Return ONLY valid, minified JSON (no comments, no markdown fences).\n- If you are unsure of a fact, use \"unknown\" or empty strings.\n- Do NOT invent links. Only include links you are reasonably confident about.\n- Prefer startups that meaningfully align with the candidate profile.\n- Include both: (1) fresh/newer companies if relevant, and (2) enduring, mission-aligned companies.\n",
   "- If the user provided companies, prioritize vetting and ranking them, and fill remaining slots with additional suggestions.",
   "\n\nJSON schema:\n\x7b\n  \"generated_at\": \"<ISO-8601 timestamp>\",\n  \"query_summary\": \"<short summary of how you interpreted the candidate\x27s profile and constraints>\",\n  \"startups\": [\n    \x7b\n      \"name\": \"<company name>\",\n      \"website\": \"<official website or empty>\",\n      \"hq_location\": \"<city/country or remote or unknown>\",\n      \"stage\": \"<pre-seed|seed|series-a|series-b|growth|unknown>\",\n      \"team_size\": \"<approx or unknown>\",\n      \"core_product\": \"<clear summary of product and problem solved>\",\n      \"founders\": [\n        \x7b\n          \"name\": \"<founder name or unknown>\",\n          \"background\": \"<short background or unknown>\",\n          \"mentality_notes\": \"<signals on builder mindset, product-first, frugality, research orientation, etc.>\"\n        \x7d\n      ],\n      \"open_source_involvement\": \x7b\n        \"level\": \"<none|partial|core|unknown>\",\n        \"repos\": [\n          \x7b\"name\": \"<repo name>\", \"url\": \"<repo url>\"\x7d\n        ]\n      \x7d,\n      \"why_aligned\": \"<explicit alignment with candidate\x27s interests, skills, and values>\",\n      \"suggested_roles\": [\"<role 1>\", \"<role 2>\"],\n      \"example_outreach\": \"<a short, tailored outreach note the candidate could send>\",\n      \"sources\": [\n        \x7b\"label\": \"website\", \"url\": \"<url or empty>\"\x7d,\n        \x7b\"label\": \"github\", \"url\": \"<url or empty>\"\x7d,\n        \x7b\"label\": \"other\", \"url\": \"<url or empty>\"\x7d\n      ],\n      \"confidence\": <float between 0 and 1>\n    \x7d\n  ],\n  \"notes\": \"<disclaimers and what to validate next>\",\n  \"next_actions\": [\"<suggested next steps for the candidate>\"]\n\x7d\n\nConstraints:\n- Limit the list to ",
   "exactly ",
   Nat.repr top_n,
   " startups.\n- Ensure diversity of choices while adhering to preferences.\n- Keep fields concise but specific."]

/-- Model of `build_user_prompt` (src/app.py lines 22-113): the f-string is
a newline, the segment text, and a newline; the function returns
`prompt.strip()`. -/
def build_user_prompt (profile : Profile) (prefs : Prefs) (provided_companies : List String)
    (top_n : Nat) : String :=
  pyStripS ("\n" ++ (concatAll (promptSegs profile prefs provided_companies top_n) ++ "\n"))

/-- Substring containment: `sub` occurs contiguously in `s`. -/
def strContains (s sub : String) : Prop :=
  ∃ p q, s.data = p ++ (sub.data ++ q)

/-! ## The Presentation Layer (`render_startup_card`) and pipeline (`main`)

Rendering is modelled as the construction of a pure record of everything
displayed.  A Python exception during rendering (e.g. `AttributeError` from
calling `.get` on a non-dict, or `TypeError` from iterating a number) is
modelled by `Except.error ()`. -/

/-- Lookup in an object member list; the last binding wins, as in a Python
dict built by `json.loads`. -/
def jLookup : List (String × JVal) → String → Option JVal
  | [], _ => none
  | (k, v) :: t, key =>
      match jLookup t key with
      | some w => some w
      | none => if k = key then some v else none

/-- Python `s.get(key)`: `null` for a missing key, `AttributeError`
(modelled as `Except.error ()`) when `s` is not a dict. -/
def jGet (s : JVal) (key : String) : Except Unit JVal :=
  match s with
  | .obj l =>
      match jLookup l key with
      | some v => Except.ok v
      | none => Except.ok .null
  | _ => Except.error ()

/-- The value `dict.get` returns on an object member list (with `null` for
a missing key). -/
def jGetD (l : List (String × JVal)) (key : String) : JVal :=
  match jLookup l key with
  | some v => v
  | none => .null

/-- Sequential effectful map (a Python `for` loop that can raise). -/
def mapE {α β : Type} (f : α → Except Unit β) : List α → Except Unit (List β)
  | [] => .ok []
  | a :: l => do
      let b ← f a
      let bs ← mapE f l
      return b :: bs

/-- Python `v or d` on decoded JSON values. -/
def pyOrJ (v d : JVal) : JVal := if jTruthy v then v else d

/-- Exponent of a JSON number as an integer. -/
def exZ : Option (Bool × List Char) → ℤ
  | none => 0
  | some (en, ed) => if en then -(digitsToNat ed : ℤ) else (digitsToNat ed : ℤ)

/-- Rational value of a JSON number in its decimal syntactic form. -/
def numToRat (neg : Bool) (ip fp : List Char) (ex : Option (Bool × List Char)) : ℚ :=
  (if neg then -1 else 1) * (digitsToNat (ip ++ fp) : ℚ) / 10 ^ fp.length * (10 : ℚ) ^ exZ ex

/-- Rational value of a numeric `JVal` (0 otherwise). -/
def jValRat : JVal → ℚ
  | .num neg ip fp ex => numToRat neg ip fp ex
  | _ => 0

/-- The number is strictly negative (integer test on the decimal form). -/
def numLtZero (neg : Bool) (ip fp : List Char) : Bool :=
  neg && decide (digitsToNat (ip ++ fp) ≠ 0)

/-- The number is strictly greater than one (integer test on the decimal
form). -/
def numGtOne (neg : Bool) (ip fp : List Char) (ex : Option (Bool × List Char)) : Bool :=
  if neg then false
  else
    match ex with
    | none => decide (10 ^ fp.length < digitsToNat (ip ++ fp))
    | some (en, ed) =>
        if en then decide (10 ^ (fp.length + digitsToNat ed) < digitsToNat (ip ++ fp))
        else decide (10 ^ fp.length < digitsToNat (ip ++ fp) * 10 ^ digitsToNat ed)

/-- Python `min(max(conf, 0.0), 1.0)` on a decoded JSON number: the float
`0.0` when negative, the float `1.0` when above one, the original object
otherwise (src/app.py line 217). -/
def pyClampNum (neg : Bool) (ip fp : List Char) (ex : Option (Bool × List Char)) : JVal :=
  if numLtZero neg ip fp then .num false ['0'] ['0'] none
  else if numGtOne neg ip fp ex then .num false ['1'] ['0'] none
  else .num neg ip fp ex

/-- One displayed founder line: name, background, mentality notes after
their `or`-defaults. -/
def renderFounder (f : JVal) : Except Unit (JVal × JVal × JVal) := do
  let n ← jGet f "name"
  let b ← jGet f "background"
  let m ← jGet f "mentality_notes"
  return (pyOrJ n (.str "unknown"), pyOrJ b (.str "unknown"), pyOrJ m (.str "—"))

/-- One displayed repository line: name and (truthy) url. -/
def renderRepo (r : JVal) : Except Unit (JVal × Option JVal) := do
  let n ← jGet r "name"
  let u ← jGet r "url"
  let u2 := pyOrJ u (.str "")
  return (pyOrJ n (.str "repo"), if jTruthy u2 then some u2 else none)

/-- One displayed source line: label and (truthy) url, the latter shown as
"(unknown)" when absent. -/
def renderSource (src : JVal) : Except Unit (JVal × Option JVal) := do
  let l ← jGet src "label"
  let u ← jGet src "url"
  let u2 := pyOrJ u (.str "")
  return (pyOrJ l (.str "link"), if jTruthy u2 then some u2 else none)

/-- A join element must be a string (`TypeError` otherwise). -/
def strOfJ (v : JVal) : Except Unit String :=
  match v with
  | .str s => .ok s
  | _ => .error ()

/-- Python `", ".join(x)` over the elements of a list. -/
def joinRoles (l : List JVal) : Except Unit String :=
  (mapE strOfJ l).map (String.intercalate ", ")

/-- Python `(x or "").strip()`: strips a string, raises (`AttributeError`)
on a truthy non-string. -/
def pyStrAttr (v : JVal) : Except Unit String :=
  match v with
  | .str w => .ok (pyStripS w)
  | _ => .error ()

/-- The founder section: skipped when falsy, one line per founder when a
list, a Python exception when truthy and wrongly typed (iterating a string
or dict yields strings whose `.get` raises; a number is not iterable). -/
def renderFoundersSec (v : JVal) : Except Unit (Option (List (JVal × JVal × JVal))) :=
  if jTruthy v then
    match v with
    | .arr fl => (mapE renderFounder fl).map some
    | _ => .error ()
  else .ok none

/-- The repository list: the "No repos listed." placeholder when falsy. -/
def renderReposSec (v : JVal) : Except Unit (Option (List (JVal × Option JVal))) :=
  if jTruthy v then
    match v with
    | .arr rl => (mapE renderRepo rl).map some
    | _ => .error ()
  else .ok none

/-- The suggested-roles line: `", ".join` accepts a list of strings, a
string (joining its characters) or a dict (joining its keys); anything else
truthy raises. -/
def renderRolesSec (v : JVal) : Except Unit (Option String) :=
  if jTruthy v then
    match v with
    | .arr rl => (joinRoles rl).map some
    | .str s2 => .ok (some (String.intercalate ", " (s2.data.map (fun c => String.mk [c]))))
    | .obj ml => .ok (some (String.intercalate ", " (ml.map Prod.fst)))
    | _ => .error ()
  else .ok none

/-- The source-link list: skipped when falsy. -/
def renderSourcesSec (v : JVal) : Except Unit (Option (List (JVal × Option JVal))) :=
  if jTruthy v then
    match v with
    | .arr sl => (mapE renderSource sl).map some
    | _ => .error ()
  else .ok none

/-- Everything `render_startup_card` displays for one startup entry. -/
structure RenderCard where
  title : JVal
  websiteShown : Option String
  caption : JVal
  stage : JVal
  team_size : JVal
  core_product : JVal
  founders : Option (List (JVal × JVal × JVal))
  oss_level : JVal
  repos : Option (List (JVal × Option JVal))
  why_aligned : JVal
  roles : Option String
  outreach : Option JVal
  sources : Option (List (JVal × Option JVal))
  progress : Option JVal

/-- Model of `render_startup_card` (src/app.py lines 148-217).  Each
`s.get(...) or default` gives the displayed default for a missing or falsy
field; iterating or calling `.get`/`.strip`/`join` on a wrong-typed truthy
value is a Python exception, modelled by `Except.error ()`. -/
def render_startup_card (s : JVal) : Except Unit RenderCard := do
  let nameV ← jGet s "name"
  let title := pyOrJ nameV (.str "Unnamed Startup")
  let websiteV ← jGet s "website"
  let websiteStr ← pyStrAttr (pyOrJ websiteV (.str ""))
  let websiteShown := if websiteStr = "" then none else some websiteStr
  let hqV ← jGet s "hq_location"
  let caption := pyOrJ hqV (.str "Location: unknown")
  let stageV ← jGet s "stage"
  let stage := pyOrJ stageV (.str "unknown")
  let sizeV ← jGet s "team_size"
  let team_size := pyOrJ sizeV (.str "unknown")
  let coreV ← jGet s "core_product"
  let core_product := pyOrJ coreV (.str "unknown")
  let foundersV ← jGet s "founders"
  let founders ← renderFoundersSec (pyOrJ foundersV (.arr []))
  let ossV ← jGet s "open_source_involvement"
  let oss := pyOrJ ossV (.obj [])
  let levelV ← jGet oss "level"
  let oss_level := pyOrJ levelV (.str "unknown")
  let reposV ← jGet oss "repos"
  let repos ← renderReposSec (pyOrJ reposV (.arr []))
  let whyV ← jGet s "why_aligned"
  let why_aligned := pyOrJ whyV (.str "—")
  let rolesV ← jGet s "suggested_roles"
  let roles ← renderRolesSec (pyOrJ rolesV (.arr []))
  let outreachV ← jGet s "example_outreach"
  let outreach2 := pyOrJ outreachV (.str "")
  let outreach := if jTruthy outreach2 then some outreach2 else none
  let sourcesV ← jGet s "sources"
  let sources ← renderSourcesSec (pyOrJ sourcesV (.arr []))
  let conf ← jGet s "confidence"
  let progress :=
    match conf with
    | .num neg ip fp ex => some (pyClampNum neg ip fp ex)
    | .bool b => some (.bool b)
    | .nanV => some .nanV
    | .infV true => some (.num false ['0'] ['0'] none)
    | .infV false => some (.num false ['1'] ['0'] none)
    | _ => none
  return { title := title, websiteShown := websiteShown, caption := caption, stage := stage,
           team_size := team_size, core_product := core_product, founders := founders,
           oss_level := oss_level, repos := repos, why_aligned := why_aligned, roles := roles,
           outreach := outreach, sources := sources, progress := progress }

/-- Everything the success path of `main` displays after a parse. -/
structure RenderedPage where
  query_summary : JVal
  cards : List RenderCard
  notes : Option JVal
  next_actions : Option JVal

/-- The startup list of the decoded document: one card per element of a
list; a truthy non-list raises while iterating or rendering. -/
def renderStartupsSec (v : JVal) : Except Unit (List RenderCard) :=
  match v with
  | .arr l => mapE render_startup_card l
  | _ => .error ()

/-- The next-actions section: skipped when falsy, displayed when iterable
(list, string or dict), a `TypeError` otherwise. -/
def nextActionsSec (v : JVal) : Except Unit (Option JVal) :=
  if jTruthy v then
    match v with
    | .arr _ => .ok (some v)
    | .str _ => .ok (some v)
    | .obj _ => .ok (some v)
    | _ => .error ()
  else .ok none

/-- Model of the structured-rendering path of `main` (src/app.py lines
311-325): caption, one card per startup, then notes and next actions. -/
def renderDoc (d : JVal) : Except Unit RenderedPage := do
  let qsV ← jGet d "query_summary"
  let qs := pyOrJ qsV (.str "")
  let stV ← jGet d "startups"
  let cards ← renderStartupsSec (pyOrJ stV (.arr []))
  let notesV ← jGet d "notes"
  let notes := if jTruthy notesV then some notesV else none
  let naV ← jGet d "next_actions"
  let next_actions ← nextActionsSec naV
  return { query_summary := qs, cards := cards, notes := notes, next_actions := next_actions }

/-- The value is a JSON string. -/
def isStrB : JVal → Bool
  | .str _ => true
  | _ => false

/-- The value is a JSON object. -/
def isObjB : JVal → Bool
  | .obj _ => true
  | _ => false

/-- The value is a list whose elements are all objects. -/
def arrObjsB : JVal → Bool
  | .arr l => l.all isObjB
  | _ => false

/-- A value `", ".join` accepts: a list of strings, a string, or a dict. -/
def rolesOkB : JVal → Bool
  | .arr l => l.all isStrB
  | .str _ => true
  | .obj _ => true
  | _ => false

/-- A well-typed `open_source_involvement` value: an object whose `repos`
member (when truthy) is a list of objects. -/
def ossOkB : JVal → Bool
  | .obj l => !jTruthy (jGetD l "repos") || arrObjsB (jGetD l "repos")
  | _ => false

/-- A nested optional field is safe when it is falsy (absent, null, empty)
or well-typed. -/
def fieldSafe (v : JVal) (ok : JVal → Bool) : Bool :=
  !jTruthy v || ok v

/-- Every nested optional field of the startup entry is absent, falsy or of
the type the rendering code consumes. -/
def wellTypedEntry (entry : List (String × JVal)) : Bool :=
  fieldSafe (jGetD entry "website") isStrB &&
  fieldSafe (jGetD entry "founders") arrObjsB &&
  fieldSafe (jGetD entry "open_source_involvement") ossOkB &&
  fieldSafe (jGetD entry "suggested_roles") rolesOkB &&
  fieldSafe (jGetD entry "sources") arrObjsB

/-- The object has a string member under the given key. -/
def strFieldB (l : List (String × JVal)) (k : String) : Bool :=
  match jLookup l k with
  | some (.str _) => true
  | _ => false

/-- The object has a numeric member under the given key. -/
def numFieldB (l : List (String × JVal)) (k : String) : Bool :=
  match jLookup l k with
  | some (.num _ _ _ _) => true
  | _ => false

/-- A JSON list of strings. -/
def strArrB : JVal → Bool
  | .arr xs => xs.all isStrB
  | _ => false

/-- A Founder record of the schema. -/
def founderObjB : JVal → Bool
  | .obj fl => strFieldB fl "name" && strFieldB fl "background" && strFieldB fl "mentality_notes"
  | _ => false

/-- A repository reference of the schema. -/
def repoObjB : JVal → Bool
  | .obj rl => strFieldB rl "name" && strFieldB rl "url"
  | _ => false

/-- A labeled source link of the schema. -/
def sourceObjB : JVal → Bool
  | .obj sl => strFieldB sl "label" && strFieldB sl "url"
  | _ => false

/-- An OpenSourceInvolvement record of the schema. -/
def ossObjB : JVal → Bool
  | .obj ol =>
      strFieldB ol "level" &&
      (match jLookup ol "repos" with
       | some (.arr rl) => rl.all repoObjB
       | _ => false)
  | _ => false

/-- A StartupEntry record of the schema (src/app.py lines 73-102). -/
def startupEntryB : JVal → Bool
  | .obj el =>
      strFieldB el "name" && strFieldB el "website" && strFieldB el "hq_location" &&
      strFieldB el "stage" && strFieldB el "team_size" && strFieldB el "core_product" &&
      (match jLookup el "founders" with
       | some (.arr fl) => fl.all founderObjB
       | _ => false) &&
      (match jLookup el "open_source_involvement" with
       | some o => ossObjB o
       | none => false) &&
      strFieldB el "why_aligned" &&
      (match jLookup el "suggested_roles" with
       | some r => strArrB r
       | _ => false) &&
      strFieldB el "example_outreach" &&
      (match jLookup el "sources" with
       | some (.arr sl) => sl.all sourceObjB
       | _ => false) &&
      numFieldB el "confidence"
  | _ => false

/-- A valid CurationResult document (src/app.py lines 69-106): the schema
shape plus serializability (`validJ`: well-formed number syntax and
distinct object keys). -/
def isCurationDocB : JVal → Bool
  | .obj dl =>
      validJ (.obj dl) &&
      strFieldB dl "generated_at" && strFieldB dl "query_summary" &&
      (match jLookup dl "startups" with
       | some (.arr es) => es.all startupEntryB
       | _ => false) &&
      strFieldB dl "notes" &&
      (match jLookup dl "next_actions" with
       | some r => strArrB r
       | _ => false)
  | _ => false

/-- A raw model response wrapped in a Markdown fenced code block with a
language tag. -/
def fenceWrap (tag body : String) : String :=
  "```" ++ tag ++ "\n" ++ body ++ "\n```"

/-- A concrete full-schema CurationResult document (a witness input for the
round-trip property). -/
def sampleDoc : JVal :=
  .obj [
    ("generated_at", .str "2025-01-01T00:00:00Z"),
    ("query_summary", .str "ML engineer, open source"),
    ("startups", .arr [
      .obj [
        ("name", .str "Acme AI"),
        ("website", .str "https://acme.example"),
        ("hq_location", .str "Berlin"),
        ("stage", .str "seed"),
        ("team_size", .str "10-20"),
        ("core_product", .str "agents"),
        ("founders", .arr [
          .obj [
            ("name", .str "F. Founder"),
            ("background", .str "infra"),
            ("mentality_notes", .str "ships fast")]]),
        ("open_source_involvement", .obj [
          ("level", .str "core"),
          ("repos", .arr [
            .obj [("name", .str "acme-core"), ("url", .str "https://git.example/acme")]])]),
        ("why_aligned", .str "values match"),
        ("suggested_roles", .arr [.str "ML Engineer"]),
        ("example_outreach", .str "Hi!"),
        ("sources", .arr [
          .obj [("label", .str "site"), ("url", .str "https://acme.example")]]),
        ("confidence", .num false ['0'] ['8', '2'] none)]]),
    ("notes", .str "none"),
    ("next_actions", .arr [.str "reach out"])]

mutual

/-- Fuel sufficient for `parseVal` to parse a serialized value. -/
def need : JVal → Nat
  | .arr l => 1 + needL l
  | .obj m => 1 + needM m
  | _ => 1

/-- Fuel sufficient for the array-element loop. -/
def needL : List JVal → Nat
  | [] => 1
  | v :: t => 1 + need v + needL t

/-- Fuel sufficient for the object-member loop. -/
def needM : List (String × JVal) → Nat
  | [] => 1
  | (_, v) :: t => 1 + need v + needM t

end

/-- The text following a serialized number must not extend it: its first
character (if any) is not a digit, dot, exponent letter or sign.  Holds
for the empty rest and inside arrays and objects (`,`, `]`, `\x7d`). -/
def sepOk (rest : List Char) : Prop :=
  ∀ c, rest.head? = some c →
    isDigit c = false ∧ c ≠ '.' ∧ c ≠ 'e' ∧ c ≠ 'E' ∧ c ≠ '+' ∧ c ≠ '-'

/-- Outcome of one user-triggered generation attempt. -/
inductive GenOutcome where
  | missingCredential : GenOutcome
  | providerError (msg : String) : GenOutcome
  | parseFallback (raw : String) : GenOutcome
  | rendered (page : RenderedPage) : GenOutcome
  | scriptError : GenOutcome

/-- Model of `main` lines 304-332: parse the raw model output; `if not
data:` sends both a failed parse and a falsy decoded value to the raw-text
fallback; otherwise render the document (a rendering exception, e.g. on a
non-object document, is `scriptError`). -/
def handle_response (raw : String) : GenOutcome :=
  match parse_json_response raw with
  | none => .parseFallback raw
  | some d =>
      if jTruthy d then
        match renderDoc d with
        | .ok pg => .rendered pg
        | .error _ => .scriptError
      else .parseFallback raw

/-- Model of the generate-button branch of `main` (src/app.py lines
291-309): an empty/missing `OPENAI_API_KEY` aborts with the credential
error before `call_model` runs; an exception from `call_model` becomes the
provider error; otherwise the response is handled.  The `Bool` records
whether the network call was made. -/
def run_generation (api_key : String) (call_result : Except String String) :
    GenOutcome × Bool :=
  if api_key = "" then (.missingCredential, false)
  else
    match call_result with
    | .error e => (.providerError e, true)
    | .ok raw => (handle_response raw, true)

/-! ## Helper lemmas: Python `strip` and concatenation -/

theorem dropWhile_cons_false {p : Char → Bool} {c : Char} {l : List Char} (h : p c = false) :
    List.dropWhile p (c :: l) = c :: l := by
  simp [List.dropWhile_cons, h]

theorem dropWhile_cons_true {p : Char → Bool} {c : Char} {l : List Char} (h : p c = true) :
    List.dropWhile p (c :: l) = List.dropWhile p l := by
  simp [List.dropWhile_cons, h]

theorem pyStrip_id {l : List Char} (h1 : ∀ c, l.head? = some c → pyWs c = false)
    (h2 : ∀ c, l.getLast? = some c → pyWs c = false) : pyStrip l = l := by
  cases l with
  | nil => rfl
  | cons c t =>
    unfold pyStrip
    rw [dropWhile_cons_false (h1 c rfl)]
    rcases hrev : (c :: t).reverse with _ | ⟨d, r⟩
    · simp at hrev
    · have hd : (c :: t).getLast? = some d := by
        rw [← List.head?_reverse, hrev]; rfl
      rw [dropWhile_cons_false (h2 d hd)]
      rw [show d :: r = (c :: t).reverse from hrev.symm, List.reverse_reverse]

theorem pyStrip_wrapNL {l : List Char} {c1 c2 : Char}
    (h1 : l.head? = some c1) (hw1 : pyWs c1 = false)
    (h2 : l.getLast? = some c2) (hw2 : pyWs c2 = false) :
    pyStrip ('\n' :: (l ++ ['\n'])) = l := by
  unfold pyStrip
  rw [dropWhile_cons_true (by decide)]
  rcases l with _ | ⟨c, t⟩
  · cases h1
  · cases h1
    rw [List.cons_append, dropWhile_cons_false hw1, ← List.cons_append,
        List.reverse_append, List.reverse_singleton]
    rw [List.singleton_append, dropWhile_cons_true (by decide)]
    rcases hrev : (c1 :: t).reverse with _ | ⟨d, r⟩
    · simp at hrev
    · have hd : (c1 :: t).getLast? = some d := by
        rw [← List.head?_reverse, hrev]; rfl
      have hdc : c2 = d := by
        rw [h2] at hd
        exact Option.some.inj hd
      rw [dropWhile_cons_false (hdc ▸ hw2)]
      rw [show d :: r = (c1 :: t).reverse from hrev.symm, List.reverse_reverse]

theorem concatAll_cons (s : String) (t : List String) :
    concatAll (s :: t) = s ++ concatAll t := rfl

theorem concatAll_data_head?_cons {c : Char} (s : String) (t : List String)
    (h : s.data.head? = some c) :
    (concatAll (s :: t)).data.head? = some c := by
  rw [concatAll_cons, String.data_append]
  rcases hs : s.data with _ | ⟨d, r⟩
  · rw [hs] at h; cases h
  · rw [hs] at h; cases h; rfl

theorem concatAll_data_getLast?_cons {c : Char} (s : String) (t : List String)
    (h : (concatAll t).data.getLast? = some c) :
    (concatAll (s :: t)).data.getLast? = some c := by
  rw [concatAll_cons, String.data_append]
  rw [List.getLast?_append_of_ne_nil]
  · exact h
  · intro he
    rw [he] at h; cases h

theorem scOfEq {s t x : String} (e : s = t) (h : strContains t x) : strContains s x :=
  e ▸ h

theorem concatAll_contains_at {x : String} :
    ∀ (l : List String) (i : Nat) (t : List String),
      l.drop i = x :: t → strContains (concatAll l) x := by
  intro l i
  induction i generalizing l with
  | zero =>
    intro t h
    rw [List.drop_zero] at h
    subst h
    exact ⟨[], (concatAll t).data, by simp [concatAll_cons, String.data_append]⟩
  | succ i ih =>
    intro t h
    rcases l with _ | ⟨s, l'⟩
    · cases h
    · obtain ⟨p, q, hp⟩ := ih l' t h
      exact ⟨s.data ++ p, q, by rw [concatAll_cons, String.data_append, hp, List.append_assoc]⟩

theorem concatAll_contains_pair {x y : String} :
    ∀ (l : List String) (i : Nat) (t : List String),
      l.drop i = x :: y :: t → strContains (concatAll l) (x ++ y) := by
  intro l i
  induction i generalizing l with
  | zero =>
    intro t h
    rw [List.drop_zero] at h
    subst h
    exact ⟨[], (concatAll t).data, by
      simp [concatAll_cons, String.data_append, List.append_assoc]⟩
  | succ i ih =>
    intro t h
    rcases l with _ | ⟨s, l'⟩
    · cases h
    · obtain ⟨p, q, hp⟩ := ih l' t h
      exact ⟨s.data ++ p, q, by rw [concatAll_cons, String.data_append, hp, List.append_assoc]⟩

theorem build_user_prompt_eq (p : Profile) (q : Prefs) (pc : List String) (n : Nat) :
    build_user_prompt p q pc n = concatAll (promptSegs p q pc n) := by
  have hh : (concatAll (promptSegs p q pc n)).data.head? = some 'Y' := by
    rw [promptSegs]
    apply concatAll_data_head?_cons
    rfl
  have hl : (concatAll (promptSegs p q pc n)).data.getLast? = some '.' := by
    rw [promptSegs]
    iterate 35 apply concatAll_data_getLast?_cons
    decide
  unfold build_user_prompt pyStripS
  have hd : ("\n" ++ (concatAll (promptSegs p q pc n) ++ "\n")).data
      = '\n' :: ((concatAll (promptSegs p q pc n)).data ++ ['\n']) := by
    rw [String.data_append, String.data_append]
    rfl
  rw [hd, pyStrip_wrapNL hh (by decide) hl (by decide)]

theorem scSubEq {s x y : String} (h : strContains s x) (e : x = y) : strContains s y :=
  e ▸ h

/-! ## Claim theorems: the Prompt Builder -/

/-- C3: for every input, the Prompt Builder output contains each profile
and preference field after its `or`-default substitution (so every
non-blank field value appears verbatim, and every missing/blank field
appears as its fallback token: `"N/A"` for profile fields, `"Any"` for
sectors/stage/team-size/location/geo, `"Neutral"` for open-source
importance, `"None"` for other/exclude/provided-company fields), and it
contains the literal result-count constraint `"exactly N"`; in particular,
for profile = ⟨headline := "ML Engineer"⟩ with everything else blank and
N = 5, the output contains "ML Engineer", "N/A", "Any", "Neutral", "None"
and "exactly 5". -/
theorem prompt_fallback_and_count (p : Profile) (q : Prefs) (pc : List String) (n : Nat) :
    (strContains (build_user_prompt p q pc n) (py_or p.name "N/A") ∧
     strContains (build_user_prompt p q pc n) (py_or p.headline "N/A") ∧
     strContains (build_user_prompt p q pc n) (py_or p.skills "N/A") ∧
     strContains (build_user_prompt p q pc n) (py_or p.interests "N/A") ∧
     strContains (build_user_prompt p q pc n) (py_or p.values "N/A") ∧
     strContains (build_user_prompt p q pc n) (py_or p.links "N/A")) ∧
    (strContains (build_user_prompt p q pc n) (py_or q.sectors "Any") ∧
     strContains (build_user_prompt p q pc n) (py_or q.stage "Any") ∧
     strContains (build_user_prompt p q pc n) (py_or q.team_size "Any") ∧
     strContains (build_user_prompt p q pc n) (py_or q.location "Any") ∧
     strContains (build_user_prompt p q pc n) (py_or q.oss_importance "Neutral") ∧
     strContains (build_user_prompt p q pc n) (py_or q.other "None") ∧
     strContains (build_user_prompt p q pc n) (py_or q.exclude "None") ∧
     strContains (build_user_prompt p q pc n) (py_or q.geo "Any")) ∧
    strContains (build_user_prompt p q pc n) (if pc = [] then "None" else pyListRepr pc) ∧
    strContains (build_user_prompt p q pc n) ("exactly " ++ Nat.repr n) ∧
    (strContains (build_user_prompt ⟨"", "ML Engineer", "", "", "", ""⟩
        ⟨"", "", "", "", "", "", "", ""⟩ [] 5) "ML Engineer" ∧
     strContains (build_user_prompt ⟨"", "ML Engineer", "", "", "", ""⟩
        ⟨"", "", "", "", "", "", "", ""⟩ [] 5) "N/A" ∧
     strContains (build_user_prompt ⟨"", "ML Engineer", "", "", "", ""⟩
        ⟨"", "", "", "", "", "", "", ""⟩ [] 5) "Any" ∧
     strContains (build_user_prompt ⟨"", "ML Engineer", "", "", "", ""⟩
        ⟨"", "", "", "", "", "", "", ""⟩ [] 5) "Neutral" ∧
     strContains (build_user_prompt ⟨"", "ML Engineer", "", "", "", ""⟩
        ⟨"", "", "", "", "", "", "", ""⟩ [] 5) "None" ∧
     strContains (build_user_prompt ⟨"", "ML Engineer", "", "", "", ""⟩
        ⟨"", "", "", "", "", "", "", ""⟩ [] 5) "exactly 5") := by
  refine ⟨⟨?_, ?_, ?_, ?_, ?_, ?_⟩, ⟨?_, ?_, ?_, ?_, ?_, ?_, ?_, ?_⟩, ?_, ?_,
    ?_, ?_, ?_, ?_, ?_, ?_⟩
  · exact scOfEq (build_user_prompt_eq p q pc n) (concatAll_contains_at _ 1 _ rfl)
  · exact scOfEq (build_user_prompt_eq p q pc n) (concatAll_contains_at _ 3 _ rfl)
  · exact scOfEq (build_user_prompt_eq p q pc n) (concatAll_contains_at _ 5 _ rfl)
  · exact scOfEq (build_user_prompt_eq p q pc n) (concatAll_contains_at _ 7 _ rfl)
  · exact scOfEq (build_user_prompt_eq p q pc n) (concatAll_contains_at _ 9 _ rfl)
  · exact scOfEq (build_user_prompt_eq p q pc n) (concatAll_contains_at _ 11 _ rfl)
  · exact scOfEq (build_user_prompt_eq p q pc n) (concatAll_contains_at _ 13 _ rfl)
  · exact scOfEq (build_user_prompt_eq p q pc n) (concatAll_contains_at _ 15 _ rfl)
  · exact scOfEq (build_user_prompt_eq p q pc n) (concatAll_contains_at _ 17 _ rfl)
  · exact scOfEq (build_user_prompt_eq p q pc n) (concatAll_contains_at _ 19 _ rfl)
  · exact scOfEq (build_user_prompt_eq p q pc n) (concatAll_contains_at _ 21 _ rfl)
  · exact scOfEq (build_user_prompt_eq p q pc n) (concatAll_contains_at _ 23 _ rfl)
  · exact scOfEq (build_user_prompt_eq p q pc n) (concatAll_contains_at _ 25 _ rfl)
  · exact scOfEq (build_user_prompt_eq p q pc n) (concatAll_contains_at _ 27 _ rfl)
  · exact scOfEq (build_user_prompt_eq p q pc n) (concatAll_contains_at _ 29 _ rfl)
  · exact scOfEq (build_user_prompt_eq p q pc n) (concatAll_contains_pair _ 33 _ rfl)
  · exact scOfEq (build_user_prompt_eq _ _ _ _) (concatAll_contains_at _ 3 _ rfl)
  · exact scOfEq (build_user_prompt_eq _ _ _ _) (concatAll_contains_at _ 1 _ rfl)
  · exact scOfEq (build_user_prompt_eq _ _ _ _) (concatAll_contains_at _ 13 _ rfl)
  · exact scOfEq (build_user_prompt_eq _ _ _ _) (concatAll_contains_at _ 21 _ rfl)
  · exact scOfEq (build_user_prompt_eq _ _ _ _) (concatAll_contains_at _ 23 _ rfl)
  · exact scSubEq
      (scOfEq (build_user_prompt_eq _ _ _ _)
        (@concatAll_contains_pair "exactly " (Nat.repr 5) _ 33 _ rfl)) rfl

/-- C7: the Prompt Builder is deterministic and side-effect free; it is
modelled as a pure function, and two runs on equal inputs produce the
identical output string. -/
theorem build_user_prompt_deterministic (p1 : Profile) (q1 : Prefs) (c1 : List String)
    (n1 : Nat) (p2 : Profile) (q2 : Prefs) (c2 : List String) (n2 : Nat)
    (hp : p1 = p2) (hq : q1 = q2) (hc : c1 = c2) (hn : n1 = n2) :
    build_user_prompt p1 q1 c1 n1 = build_user_prompt p2 q2 c2 n2 := by
  subst hp; subst hq; subst hc; subst hn; rfl

/-- Witness for C7 at a concrete input. -/
theorem build_user_prompt_deterministic_witness :
    build_user_prompt ⟨"a", "b", "c", "d", "e", "f"⟩ ⟨"s", "t", "u", "v", "w", "x", "y", "z"⟩
        ["g"] 7
      = build_user_prompt ⟨"a", "b", "c", "d", "e", "f"⟩ ⟨"s", "t", "u", "v", "w", "x", "y", "z"⟩
        ["g"] 7 :=
  build_user_prompt_deterministic _ _ _ _ _ _ _ _ rfl rfl rfl rfl

/-- C9: a non-empty provided-companies list is embedded (as the f-string
renders the Python list) and an empty one renders as the literal "None";
the output always contains the instruction to prioritize vetting and
ranking the supplied companies and fill remaining slots with additional
suggestions. -/
theorem prompt_provided_list (p : Profile) (q : Prefs) (pc : List String) (n : Nat) :
    (pc ≠ [] → strContains (build_user_prompt p q pc n) (pyListRepr pc)) ∧
    (pc = [] → strContains (build_user_prompt p q pc n) "None") ∧
    strContains (build_user_prompt p q pc n)
      "- If the user provided companies, prioritize vetting and ranking them, and fill remaining slots with additional suggestions." := by
  refine ⟨?_, ?_, ?_⟩
  · intro h
    have h0 := scOfEq (build_user_prompt_eq p q pc n) (concatAll_contains_at _ 29 _ rfl)
    rw [if_neg h] at h0
    exact h0
  · intro h
    have h0 := scOfEq (build_user_prompt_eq p q pc n) (concatAll_contains_at _ 29 _ rfl)
    rw [if_pos h] at h0
    exact h0
  · exact scOfEq (build_user_prompt_eq p q pc n) (concatAll_contains_at _ 31 _ rfl)

/-- Witness for C9 at concrete inputs. -/
theorem prompt_provided_list_witness :
    strContains (build_user_prompt ⟨"", "", "", "", "", ""⟩ ⟨"", "", "", "", "", "", "", ""⟩
        ["company1", "company2"] 8) (pyListRepr ["company1", "company2"]) ∧
    strContains (build_user_prompt ⟨"", "", "", "", "", ""⟩ ⟨"", "", "", "", "", "", "", ""⟩
        [] 8) "None" :=
  ⟨(prompt_provided_list _ _ _ _).1 (List.cons_ne_nil _ _),
   (prompt_provided_list _ _ _ _).2.1 rfl⟩

/-! ## Claim theorems: error handling in the pipeline -/

/-- C5: when generation is triggered with no API credential available (the
environment lookup is falsy), the branch reports the credential error and
aborts before the network call is made; a `call_model` exception is caught
and reported as the provider error; a parse failure is caught and rendered
as the raw-text fallback.  The modelled branch is a total function, so none
of these errors escapes it. -/
theorem missing_credential_aborts (key : String) (cr : Except String String) :
    (key = "" → run_generation key cr = (.missingCredential, false)) ∧
    (∀ e, cr = .error e → key ≠ "" → run_generation key cr = (.providerError e, true)) ∧
    (∀ raw, cr = .ok raw → key ≠ "" → parse_json_response raw = none →
      run_generation key cr = (.parseFallback raw, true)) := by
  refine ⟨?_, ?_, ?_⟩
  · intro h
    subst h
    rfl
  · intro e he hk
    subst he
    simp [run_generation, hk]
  · intro raw hr hk hp
    subst hr
    simp [run_generation, hk, handle_response, hp]

/-- Witness for C5 at concrete inputs. -/
theorem missing_credential_aborts_witness :
    run_generation "" (.ok "whatever") = (.missingCredential, false) ∧
    run_generation "sk-key" (.error "rate limited") = (.providerError "rate limited", true) :=
  ⟨(missing_credential_aborts "" (.ok "whatever")).1 rfl,
   (missing_credential_aborts "sk-key" (.error "rate limited")).2.1 "rate limited" rfl
     (by decide)⟩

/-- C10: when the raw text is valid JSON but decodes to a falsy top-level
value, the caller takes the parse-failure path (error message plus raw-text
fallback) even though decoding succeeded, because `if not data:` tests
truthiness; shown in general and at "\x7b\x7d", "null", "0" and "\"\"". -/
theorem falsy_decode_falls_back (raw : String) (v : JVal)
    (hp : parse_json_response raw = some v) (ht : jTruthy v = false) :
    handle_response raw = .parseFallback raw ∧
    (parse_json_response "\x7b\x7d" = some (.obj []) ∧
     handle_response "\x7b\x7d" = .parseFallback "\x7b\x7d") ∧
    (parse_json_response "null" = some .null ∧
     handle_response "null" = .parseFallback "null") ∧
    (parse_json_response "0" = some (.num false ['0'] [] none) ∧
     handle_response "0" = .parseFallback "0") ∧
    (parse_json_response "\"\"" = some (.str "") ∧
     handle_response "\"\"" = .parseFallback "\"\"") := by
  refine ⟨?_, ⟨rfl, rfl⟩, ⟨rfl, rfl⟩, ⟨rfl, rfl⟩, ⟨rfl, rfl⟩⟩
  simp [handle_response, hp, ht]

/-- Witness for C10 at the concrete input "\x7b\x7d". -/
theorem falsy_decode_falls_back_witness :
    handle_response "\x7b\x7d" = .parseFallback "\x7b\x7d" :=
  (falsy_decode_falls_back "\x7b\x7d" (.obj []) rfl rfl).1

/-- C1 counterexample: the raw text "[1]" is valid JSON with the wrong
top-level shape, yet `parse_json_response` does not return the failure
signal, and the caller does not present the raw text or skip structured
rendering — the success path is taken and fails while rendering. -/
theorem parse_wrong_shape_counterexample :
    parse_json_response "[1]" = some (.arr [.num false ['1'] [] none]) ∧
    parse_json_response "[1]" ≠ none ∧
    handle_response "[1]" = .scriptError ∧
    handle_response "[1]" ≠ .parseFallback "[1]" := by
  refine ⟨rfl, ?_, rfl, ?_⟩
  · intro h
    rw [show parse_json_response "[1]" = some (.arr [.num false ['1'] [] none]) from rfl] at h
    cases h
  · intro h
    rw [show handle_response "[1]" = .scriptError from rfl] at h
    cases h

/-- C1 (amended): for raw text that fails strict JSON decoding after fence
cleaning, `parse_json_response` returns the failure signal `none` — the
model is a total function, so it never raises — and the caller then
presents the original raw (unstripped) text as the fallback and skips
structured rendering.  (When decoding succeeds with a wrong-shaped
top-level value, no failure signal is produced: falsy values reach the
fallback through truthiness and truthy non-objects fail during structured
rendering, as the counterexample shows.) -/
theorem parse_failure_falls_back (raw : String)
    (hp : parse_json_response raw = none) :
    handle_response raw = .parseFallback raw ∧
    (parse_json_response "not json at all" = none ∧
     handle_response "not json at all" = .parseFallback "not json at all") := by
  refine ⟨?_, rfl, rfl⟩
  simp [handle_response, hp]

/-- Witness for C1 (amended) at the concrete input "not json at all". -/
theorem parse_failure_falls_back_witness :
    handle_response "not json at all" = .parseFallback "not json at all" :=
  (parse_failure_falls_back "not json at all" rfl).1

/-! ## Helper lemmas: the confidence clamp -/

theorem except_bind_ok {α β : Type} {x : Except Unit α} {f : α → Except Unit β} {c : β} :
    (x >>= f) = .ok c ↔ ∃ a, x = .ok a ∧ f a = .ok c := by
  cases x <;> simp [Bind.bind, Except.bind]

theorem numToRat_false_eq (ip fp : List Char) (ex : Option (Bool × List Char)) :
    numToRat false ip fp ex
      = (digitsToNat (ip ++ fp) : ℚ) / 10 ^ fp.length * (10:ℚ) ^ exZ ex := by
  unfold numToRat
  norm_num

theorem numToRat_true_eq (ip fp : List Char) (ex : Option (Bool × List Char)) :
    numToRat true ip fp ex
      = -((digitsToNat (ip ++ fp) : ℚ) / 10 ^ fp.length * (10:ℚ) ^ exZ ex) := by
  unfold numToRat
  norm_num
  ring

theorem numToRat_neg_of {neg : Bool} {ip fp : List Char} (ex : Option (Bool × List Char))
    (h : numLtZero neg ip fp = true) : numToRat neg ip fp ex < 0 := by
  rw [numLtZero, Bool.and_eq_true, decide_eq_true_eq] at h
  obtain ⟨hn, hm⟩ := h
  subst hn
  have h1 : 0 < (digitsToNat (ip ++ fp) : ℚ) := by
    exact_mod_cast Nat.pos_of_ne_zero hm
  have h2 : (0:ℚ) < 10 ^ fp.length := by positivity
  have h3 : (0:ℚ) < (10:ℚ) ^ exZ ex := zpow_pos (by norm_num) _
  have key := mul_pos (div_pos h1 h2) h3
  rw [numToRat_true_eq]
  exact neg_neg_of_pos key

theorem numToRat_nonneg_of {neg : Bool} {ip fp : List Char} (ex : Option (Bool × List Char))
    (h : numLtZero neg ip fp = false) : 0 ≤ numToRat neg ip fp ex := by
  have h2 : (0:ℚ) < 10 ^ fp.length := by positivity
  have h3 : (0:ℚ) < (10:ℚ) ^ exZ ex := zpow_pos (by norm_num) _
  have h1 : 0 ≤ (digitsToNat (ip ++ fp) : ℚ) := by positivity
  cases neg with
  | false =>
    rw [numToRat_false_eq]
    exact mul_nonneg (div_nonneg h1 h2.le) h3.le
  | true =>
    rw [numLtZero, Bool.true_and, decide_eq_false_iff_not, not_not] at h
    rw [numToRat_true_eq, h]
    norm_num

theorem numToRat_gt_one_of {neg : Bool} {ip fp : List Char} {ex : Option (Bool × List Char)}
    (h : numGtOne neg ip fp ex = true) : 1 < numToRat neg ip fp ex := by
  have h2 : (0:ℚ) < 10 ^ fp.length := by positivity
  cases neg with
  | true => simp only [numGtOne, if_true] at h; cases h
  | false =>
    rw [numToRat_false_eq]
    rcases ex with _ | ⟨en, ed⟩
    · simp only [numGtOne, Bool.false_eq_true, if_false, decide_eq_true_eq] at h
      simp only [exZ, zpow_zero, mul_one]
      rw [one_lt_div h2]
      exact_mod_cast h
    · cases en with
      | false =>
        simp only [numGtOne, Bool.false_eq_true, if_false, decide_eq_true_eq] at h
        have he : (10:ℚ) ^ exZ (some (false, ed)) = 10 ^ digitsToNat ed := by
          simp [exZ, zpow_natCast]
        rw [he, div_mul_eq_mul_div, one_lt_div h2]
        exact_mod_cast h
      | true =>
        simp only [numGtOne, Bool.false_eq_true, if_false, if_true, decide_eq_true_eq] at h
        have he : (10:ℚ) ^ exZ (some (true, ed)) = ((10:ℚ) ^ digitsToNat ed)⁻¹ := by
          simp [exZ, zpow_neg, zpow_natCast]
        rw [he]
        have hre : (digitsToNat (ip ++ fp) : ℚ) / 10 ^ fp.length * ((10:ℚ) ^ digitsToNat ed)⁻¹
            = (digitsToNat (ip ++ fp) : ℚ) / (10 ^ (fp.length + digitsToNat ed)) := by
          rw [pow_add]; ring
        rw [hre, one_lt_div (by positivity)]
        exact_mod_cast h

theorem numToRat_le_one_of {neg : Bool} {ip fp : List Char} {ex : Option (Bool × List Char)}
    (hz : numLtZero neg ip fp = false) (h : numGtOne neg ip fp ex = false) :
    numToRat neg ip fp ex ≤ 1 := by
  have h2 : (0:ℚ) < 10 ^ fp.length := by positivity
  cases neg with
  | true =>
    rw [numLtZero, Bool.true_and, decide_eq_false_iff_not, not_not] at hz
    rw [numToRat_true_eq, hz]
    norm_num
  | false =>
    rw [numToRat_false_eq]
    rcases ex with _ | ⟨en, ed⟩
    · simp only [numGtOne, Bool.false_eq_true, if_false, decide_eq_false_iff_not, not_lt] at h
      simp only [exZ, zpow_zero, mul_one]
      rw [div_le_one h2]
      exact_mod_cast h
    · cases en with
      | false =>
        simp only [numGtOne, Bool.false_eq_true, if_false, decide_eq_false_iff_not, not_lt] at h
        have he : (10:ℚ) ^ exZ (some (false, ed)) = 10 ^ digitsToNat ed := by
          simp [exZ, zpow_natCast]
        rw [he, div_mul_eq_mul_div, div_le_one h2]
        exact_mod_cast h
      | true =>
        simp only [numGtOne, Bool.false_eq_true, if_false, if_true, decide_eq_false_iff_not,
          not_lt] at h
        have he : (10:ℚ) ^ exZ (some (true, ed)) = ((10:ℚ) ^ digitsToNat ed)⁻¹ := by
          simp [exZ, zpow_neg, zpow_natCast]
        rw [he]
        have hre : (digitsToNat (ip ++ fp) : ℚ) / 10 ^ fp.length * ((10:ℚ) ^ digitsToNat ed)⁻¹
            = (digitsToNat (ip ++ fp) : ℚ) / (10 ^ (fp.length + digitsToNat ed)) := by
          rw [pow_add]; ring
        rw [hre, div_le_one (by positivity)]
        exact_mod_cast h

theorem pyClampNum_rat (neg : Bool) (ip fp : List Char) (ex : Option (Bool × List Char)) :
    jValRat (pyClampNum neg ip fp ex) = min (max (numToRat neg ip fp ex) 0) 1 := by
  unfold pyClampNum
  by_cases hz : numLtZero neg ip fp = true
  · rw [if_pos hz]
    have hv := numToRat_neg_of ex hz
    rw [max_eq_right hv.le, min_eq_left (by norm_num : (0:ℚ) ≤ 1)]
    show numToRat false ['0'] ['0'] none = 0
    rw [numToRat_false_eq, show digitsToNat (['0'] ++ ['0']) = 0 from rfl]
    norm_num
  · rw [if_neg hz]
    rw [Bool.not_eq_true] at hz
    by_cases hg : numGtOne neg ip fp ex = true
    · rw [if_pos hg]
      have hv := numToRat_gt_one_of hg
      have h0 : (0:ℚ) ≤ numToRat neg ip fp ex := le_trans zero_le_one hv.le
      rw [max_eq_left h0, min_eq_right hv.le]
      show numToRat false ['1'] ['0'] none = 1
      rw [numToRat_false_eq, show digitsToNat (['1'] ++ ['0']) = 10 from rfl]
      norm_num [exZ]
    · rw [if_neg hg]
      rw [Bool.not_eq_true] at hg
      rw [max_eq_left (numToRat_nonneg_of ex hz), min_eq_left (numToRat_le_one_of hz hg)]
      rfl

/-! ## Claim theorems: confidence clamping -/

/-- C6: for every startup entry whose confidence is a number, the displayed
progress value is the Python clamp `min(max(conf, 0.0), 1.0)`, whose
rational value equals the input clamped into [0, 1]; the concrete inputs
-0.5, 0.0, 0.73, 1.0 and 2.0 clamp to 0.0, 0.0, 0.73, 1.0 and 1.0. -/
theorem confidence_clamped (entry : List (String × JVal)) (neg : Bool) (ip fp : List Char)
    (ex : Option (Bool × List Char))
    (hconf : jLookup entry "confidence" = some (.num neg ip fp ex)) :
    (∀ card, render_startup_card (.obj entry) = .ok card →
      card.progress = some (pyClampNum neg ip fp ex)) ∧
    jValRat (pyClampNum neg ip fp ex) = min (max (numToRat neg ip fp ex) 0) 1 ∧
    (jValRat (pyClampNum true ['0'] ['5'] none) = 0 ∧
     jValRat (pyClampNum false ['0'] ['0'] none) = 0 ∧
     jValRat (pyClampNum false ['0'] ['7', '3'] none) = 73 / 100 ∧
     jValRat (pyClampNum false ['1'] ['0'] none) = 1 ∧
     jValRat (pyClampNum false ['2'] ['0'] none) = 1) := by
  refine ⟨?_, pyClampNum_rat neg ip fp ex, ?_, ?_, ?_, ?_, ?_⟩
  · intro card hok
    unfold render_startup_card at hok
    simp only [except_bind_ok] at hok
    obtain ⟨a1, h1, a2, h2, a3, h3, a4, h4, a5, h5, a6, h6, a7, h7, a8, h8, a9, h9,
      a10, h10, a11, h11, a12, h12, a13, h13, a14, h14, a15, h15, a16, h16, a17, h17,
      a18, h18, a19, h19, a20, h20, hfin⟩ := hok
    simp only [jGet, hconf] at h20
    rw [show a20 = JVal.num neg ip fp ex from (Except.ok.inj h20).symm] at hfin
    simp only [pure, Except.pure, Except.ok.injEq] at hfin
    rw [← hfin]
  · rw [show pyClampNum true ['0'] ['5'] none = .num false ['0'] ['0'] none from rfl]
    show numToRat false ['0'] ['0'] none = 0
    rw [numToRat_false_eq, show digitsToNat (['0'] ++ ['0']) = 0 from rfl]
    norm_num
  · rw [show pyClampNum false ['0'] ['0'] none = .num false ['0'] ['0'] none from rfl]
    show numToRat false ['0'] ['0'] none = 0
    rw [numToRat_false_eq, show digitsToNat (['0'] ++ ['0']) = 0 from rfl]
    norm_num
  · rw [show pyClampNum false ['0'] ['7', '3'] none = .num false ['0'] ['7', '3'] none from rfl]
    show numToRat false ['0'] ['7', '3'] none = 73 / 100
    rw [numToRat_false_eq, show digitsToNat (['0'] ++ ['7', '3']) = 73 from rfl]
    norm_num [exZ]
  · rw [show pyClampNum false ['1'] ['0'] none = .num false ['1'] ['0'] none from rfl]
    show numToRat false ['1'] ['0'] none = 1
    rw [numToRat_false_eq, show digitsToNat (['1'] ++ ['0']) = 10 from rfl]
    norm_num [exZ]
  · rw [show pyClampNum false ['2'] ['0'] none = .num false ['1'] ['0'] none from rfl]
    show numToRat false ['1'] ['0'] none = 1
    rw [numToRat_false_eq, show digitsToNat (['1'] ++ ['0']) = 10 from rfl]
    norm_num [exZ]

/-- Witness for C6: a concrete entry with confidence 2.0 renders, and its
displayed progress is the clamped value (the float 1.0). -/
theorem confidence_clamped_witness :
    ∃ card, render_startup_card (.obj [("confidence", .num false ['2'] ['0'] none)]) = .ok card ∧
      card.progress = some (pyClampNum false ['2'] ['0'] none) :=
  ⟨_, rfl, (confidence_clamped [("confidence", .num false ['2'] ['0'] none)] false ['2'] ['0']
      none rfl).1 _ rfl⟩

/-! ## Helper lemmas: defensive rendering -/

theorem ok_bind {α β : Type} (a : α) (f : α → Except Unit β) :
    (Except.ok a : Except Unit α) >>= f = f a := rfl

theorem jGet_obj (l : List (String × JVal)) (key : String) :
    jGet (.obj l) key = .ok (jGetD l key) := by
  cases h : jLookup l key with
  | none => simp [jGet, jGetD, h]
  | some v => simp [jGet, jGetD, h]

theorem pyOrJ_of_truthy {v : JVal} (d : JVal) (h : jTruthy v = true) : pyOrJ v d = v := by
  simp [pyOrJ, h]

theorem pyOrJ_of_falsy {v : JVal} (d : JVal) (h : jTruthy v = false) : pyOrJ v d = d := by
  simp [pyOrJ, h]

theorem mapE_ok {α β : Type} {f : α → Except Unit β} :
    ∀ {l : List α}, (∀ a ∈ l, ∃ b, f a = .ok b) → ∃ bs, mapE f l = .ok bs := by
  intro l
  induction l with
  | nil => intro _; exact ⟨[], rfl⟩
  | cons a t ih =>
    intro h
    obtain ⟨b, hb⟩ := h a (List.mem_cons_self a t)
    obtain ⟨bs, hbs⟩ := ih (fun x hx => h x (List.mem_cons_of_mem a hx))
    exact ⟨b :: bs, by unfold mapE; rw [hb, ok_bind, hbs, ok_bind]; rfl⟩

theorem renderFounder_ok {v : JVal} (h : isObjB v = true) : ∃ t, renderFounder v = .ok t := by
  cases v <;> simp [isObjB] at h
  exact ⟨_, by unfold renderFounder; simp only [jGet_obj, ok_bind]; rfl⟩

theorem renderRepo_ok {v : JVal} (h : isObjB v = true) : ∃ t, renderRepo v = .ok t := by
  cases v <;> simp [isObjB] at h
  exact ⟨_, by unfold renderRepo; simp only [jGet_obj, ok_bind]; rfl⟩

theorem renderSource_ok {v : JVal} (h : isObjB v = true) : ∃ t, renderSource v = .ok t := by
  cases v <;> simp [isObjB] at h
  exact ⟨_, by unfold renderSource; simp only [jGet_obj, ok_bind]; rfl⟩

theorem fieldSafe_cases {v : JVal} {ok : JVal → Bool} (h : fieldSafe v ok = true) :
    jTruthy v = false ∨ ok v = true := by
  rw [fieldSafe, Bool.or_eq_true, Bool.not_eq_true'] at h
  exact h

theorem pyStrAttr_ok {v : JVal} (h : fieldSafe v isStrB = true) :
    ∃ w, pyStrAttr (pyOrJ v (.str "")) = .ok w := by
  rcases fieldSafe_cases h with h | h
  · rw [pyOrJ_of_falsy _ h]
    exact ⟨"", rfl⟩
  · rcases v with _ | b | ⟨nn, ii, ff, ee⟩ | s | fl | ml | _ | nb
    · simp [isStrB] at h
    · simp [isStrB] at h
    · simp [isStrB] at h
    · by_cases ht : jTruthy (JVal.str s) = true
      · rw [pyOrJ_of_truthy _ ht]
        exact ⟨_, rfl⟩
      · rw [Bool.not_eq_true] at ht
        rw [pyOrJ_of_falsy _ ht]
        exact ⟨"", rfl⟩
    · simp [isStrB] at h
    · simp [isStrB] at h
    · simp [isStrB] at h
    · simp [isStrB] at h

theorem arrSec_ok {β : Type} {v : JVal} {g : JVal → Except Unit β}
    {sec : JVal → Except Unit (Option (List β))}
    (hdef : ∀ u, sec u = if jTruthy u then
      (match u with
       | JVal.arr l => (mapE g l).map some
       | _ => Except.error ()) else Except.ok none)
    (hg : ∀ x, isObjB x = true → ∃ t, g x = .ok t)
    (h : fieldSafe v arrObjsB = true) :
    ∃ o, sec (pyOrJ v (.arr [])) = .ok o := by
  rcases fieldSafe_cases h with h | h
  · rw [pyOrJ_of_falsy _ h]
    exact ⟨none, by rw [hdef, if_neg (by decide)]⟩
  · by_cases ht : jTruthy v = true
    · rcases v with _ | b | ⟨nn, ii, ff, ee⟩ | s | fl | ml | _ | nb
      · simp [arrObjsB] at h
      · simp [arrObjsB] at h
      · simp [arrObjsB] at h
      · simp [arrObjsB] at h
      · rw [pyOrJ_of_truthy _ ht]
        simp only [arrObjsB, List.all_eq_true] at h
        obtain ⟨bs, hbs⟩ := mapE_ok (fun x hx => hg x (h x hx))
        refine ⟨some bs, ?_⟩
        rw [hdef, if_pos ht]
        show (mapE g fl).map some = Except.ok (some bs)
        rw [hbs]
        rfl
      · simp [arrObjsB] at h
      · simp [arrObjsB] at h
      · simp [arrObjsB] at h
    · rw [Bool.not_eq_true] at ht
      rw [pyOrJ_of_falsy _ ht]
      exact ⟨none, by rw [hdef, if_neg (by decide)]⟩

theorem renderRolesSec_ok {v : JVal} (h : fieldSafe v rolesOkB = true) :
    ∃ o, renderRolesSec (pyOrJ v (.arr [])) = .ok o := by
  rcases fieldSafe_cases h with h | h
  · rw [pyOrJ_of_falsy _ h]
    exact ⟨none, rfl⟩
  · by_cases ht : jTruthy v = true
    · rcases v with _ | b | ⟨nn, ii, ff, ee⟩ | s2 | rl | ml | _ | nb
      · simp [rolesOkB] at h
      · simp [rolesOkB] at h
      · simp [rolesOkB] at h
      · rw [pyOrJ_of_truthy _ ht]
        exact ⟨_, by unfold renderRolesSec; rw [if_pos ht]⟩
      · rw [pyOrJ_of_truthy _ ht]
        simp only [rolesOkB, List.all_eq_true] at h
        have hstr : ∀ x ∈ rl, ∃ b, strOfJ x = .ok b := by
          intro x hx
          have hs := h x hx
          cases x <;> simp [isStrB] at hs
          exact ⟨_, rfl⟩
        obtain ⟨bs, hbs⟩ := mapE_ok hstr
        refine ⟨some (String.intercalate ", " bs), ?_⟩
        unfold renderRolesSec
        rw [if_pos ht]
        show (joinRoles rl).map some = _
        unfold joinRoles
        rw [hbs]
        rfl
      · rw [pyOrJ_of_truthy _ ht]
        exact ⟨_, by unfold renderRolesSec; rw [if_pos ht]⟩
      · simp [rolesOkB] at h
      · simp [rolesOkB] at h
    · rw [Bool.not_eq_true] at ht
      rw [pyOrJ_of_falsy _ ht]
      exact ⟨none, rfl⟩

theorem ossOk_shape {v : JVal} (h : fieldSafe v ossOkB = true) :
    ∃ l, pyOrJ v (.obj []) = .obj l ∧ fieldSafe (jGetD l "repos") arrObjsB = true := by
  rcases fieldSafe_cases h with h | h
  · rw [pyOrJ_of_falsy _ h]
    exact ⟨[], rfl, rfl⟩
  · rcases v with _ | b | ⟨nn, ii, ff, ee⟩ | s | fl | ml | _ | nb
    · simp [ossOkB] at h
    · simp [ossOkB] at h
    · simp [ossOkB] at h
    · simp [ossOkB] at h
    · simp [ossOkB] at h
    · by_cases ht : jTruthy (JVal.obj ml) = true
      · rw [pyOrJ_of_truthy _ ht]
        exact ⟨ml, rfl, h⟩
      · rw [Bool.not_eq_true] at ht
        rw [pyOrJ_of_falsy _ ht]
        exact ⟨[], rfl, rfl⟩
    · simp [ossOkB] at h
    · simp [ossOkB] at h

/-! ## Helper lemmas: fence stripping -/

theorem splitlines_cons_lf (r : List Char) : splitlines ('\n' :: r) = [] :: splitlines r := by
  simp [splitlines, pyBreak]

theorem splitlines_cons_nb (c : Char) (r : List Char) (h : pyBreak c = false) :
    splitlines (c :: r) =
      match splitlines r with
      | [] => [[c]]
      | l :: ls => (c :: l) :: ls := by
  have hc : c ≠ '\x0d' := by
    rintro rfl
    simp [pyBreak] at h
  rw [splitlines.eq_def]
  split <;> simp_all

theorem splitNL_cons_lf (r : List Char) : splitNL ('\n' :: r) = [] :: splitNL r := rfl

theorem splitNL_cons_nb (c : Char) (r : List Char) (h : c ≠ '\n') :
    splitNL (c :: r) =
      match splitNL r with
      | [] => [[c]]
      | l :: ls => (c :: l) :: ls := by
  rw [splitNL.eq_def]
  split <;> simp_all

theorem splitNL_ne_nil (l : List Char) : splitNL l ≠ [] := by
  cases l with
  | nil => simp [splitNL]
  | cons c r =>
    by_cases hc : c = '\n'
    · subst hc
      rw [splitNL_cons_lf]
      simp
    · rw [splitNL_cons_nb c r hc]
      cases splitNL r <;> simp

theorem joinNL_cons_head (c : Char) (h : List Char) (t : List (List Char)) :
    joinNL ((c :: h) :: t) = c :: joinNL (h :: t) := by
  cases t <;> rfl

theorem joinNL_splitNL : ∀ l : List Char, joinNL (splitNL l) = l := by
  intro l
  induction l with
  | nil => rfl
  | cons c r ih =>
    by_cases hc : c = '\n'
    · subst hc
      rw [splitNL_cons_lf]
      obtain ⟨h, t, hs⟩ : ∃ h t, splitNL r = h :: t := by
        rcases he : splitNL r with _ | ⟨h, t⟩
        · exact absurd he (splitNL_ne_nil r)
        · exact ⟨h, t, rfl⟩
      rw [hs]
      rw [hs] at ih
      show '\n' :: joinNL (h :: t) = '\n' :: r
      rw [ih]
    · rw [splitNL_cons_nb c r hc]
      obtain ⟨h, t, hs⟩ : ∃ h t, splitNL r = h :: t := by
        rcases he : splitNL r with _ | ⟨h, t⟩
        · exact absurd he (splitNL_ne_nil r)
        · exact ⟨h, t, rfl⟩
      rw [hs]
      rw [hs] at ih
      show joinNL ((c :: h) :: t) = c :: r
      rw [joinNL_cons_head, ih]

theorem splitlines_nobreak : ∀ g : List Char, (∀ c ∈ g, pyBreak c = false) → g ≠ [] →
    splitlines g = [g] := by
  intro g
  induction g with
  | nil => intro _ h; cases h rfl
  | cons c rest ih =>
    intro h _
    rw [splitlines_cons_nb c rest (h c (List.mem_cons_self c rest))]
    cases hrest : rest with
    | nil => rfl
    | cons c2 r2 =>
      rw [← hrest, ih (fun x hx => h x (List.mem_cons_of_mem c hx)) (by rw [hrest]; simp)]

theorem splitlines_append_lf : ∀ (a rest : List Char), (∀ c ∈ a, pyBreak c = false) →
    splitlines (a ++ '\n' :: rest) = a :: splitlines rest := by
  intro a
  induction a with
  | nil => intro rest _; exact splitlines_cons_lf rest
  | cons c a' ih =>
    intro rest h
    rw [List.cons_append, splitlines_cons_nb c _ (h c (List.mem_cons_self c a')),
        ih rest (fun x hx => h x (List.mem_cons_of_mem c hx))]

theorem splitlines_body : ∀ (body g : List Char),
    (∀ c ∈ body, c = '\n' ∨ pyBreak c = false) → (∀ c ∈ g, pyBreak c = false) → g ≠ [] →
    splitlines (body ++ '\n' :: g) = splitNL body ++ [g] := by
  intro body
  induction body with
  | nil =>
    intro g hg hne _
    rw [List.nil_append, splitlines_cons_lf, splitlines_nobreak g hne _]
    · rfl
    · exact ‹g ≠ []›
  | cons c r ih =>
    intro g hbody hg hne
    rcases hbody c (List.mem_cons_self c r) with hc | hc
    · subst hc
      rw [List.cons_append, splitlines_cons_lf, splitNL_cons_lf,
          ih g (fun x hx => hbody x (List.mem_cons_of_mem _ hx)) hg hne]
      rfl
    · have hcn : c ≠ '\n' := by
        rintro rfl
        simp [pyBreak] at hc
      rw [List.cons_append, splitlines_cons_nb c _ hc,
          ih g (fun x hx => hbody x (List.mem_cons_of_mem _ hx)) hg hne,
          splitNL_cons_nb c r hcn]
      obtain ⟨h, t, hs⟩ : ∃ h t, splitNL r = h :: t := by
        rcases he : splitNL r with _ | ⟨h, t⟩
        · exact absurd he (splitNL_ne_nil r)
        · exact ⟨h, t, rfl⟩
      rw [hs]
      rfl

theorem isPrefixOf_append_self : ∀ (p r : List Char), p.isPrefixOf (p ++ r) = true := by
  intro p r
  induction p with
  | nil => simp [List.isPrefixOf]
  | cons c p' ih => simp [List.isPrefixOf, ih]

theorem getLastD_concat {α : Type} (x d : α) : ∀ (l : List α), (l ++ [x]).getLastD d = x := by
  intro l
  induction l generalizing d with
  | nil => rfl
  | cons a t ih => rw [List.cons_append, List.getLastD_cons, ih]

theorem cleanCore_fence (tag body : List Char)
    (htag : ∀ c ∈ tag, pyBreak c = false)
    (hbody : ∀ c ∈ body, c = '\n' ∨ pyBreak c = false)
    (hstrip : pyStrip body = body) :
    cleanCore ("```".data ++ (tag ++ '\n' :: (body ++ '\n' :: "```".data))) = body := by
  have hbq3 : "```".data = [bq, bq, bq] := rfl
  have hfull : "```".data ++ (tag ++ '\n' :: (body ++ '\n' :: "```".data))
      = ("```".data ++ tag) ++ '\n' :: (body ++ '\n' :: "```".data) := by
    rw [List.append_assoc]
  have hconcat : "```".data ++ (tag ++ '\n' :: (body ++ '\n' :: "```".data))
      = ("```".data ++ (tag ++ '\n' :: (body ++ '\n' :: [bq, bq]))) ++ [bq] := by
    rw [hbq3]; simp
  have hstrip_full : pyStrip ("```".data ++ (tag ++ '\n' :: (body ++ '\n' :: "```".data)))
      = "```".data ++ (tag ++ '\n' :: (body ++ '\n' :: "```".data)) := by
    apply pyStrip_id
    · intro c hc
      rw [hbq3] at hc
      simp only [List.cons_append, List.head?_cons] at hc
      cases hc
      decide
    · intro c hc
      rw [hconcat, List.getLast?_concat] at hc
      cases hc
      decide
  have hnb : ∀ c ∈ "```".data ++ tag, pyBreak c = false := by
    intro c hc
    rcases List.mem_append.mp hc with hc | hc
    · have hcb : c = bq := by
        rw [hbq3] at hc
        simpa using hc
      subst hcb
      decide
    · exact htag c hc
  have hgq : ∀ c ∈ "```".data, pyBreak c = false := by
    intro c hc
    have hcb : c = bq := by
      rw [hbq3] at hc
      simpa using hc
    subst hcb
    decide
  have hlines : splitlines ("```".data ++ (tag ++ '\n' :: (body ++ '\n' :: "```".data)))
      = ("```".data ++ tag) :: (splitNL body ++ ["```".data]) := by
    rw [hfull, splitlines_append_lf _ _ hnb, splitlines_body body _ hbody hgq (by simp)]
  show pyStrip (cleanFence (pyStrip _)) = body
  rw [hstrip_full]
  unfold cleanFence
  rw [hlines]
  rw [if_pos (isPrefixOf_append_self _ _)]
  rw [if_pos ?hcond]
  case hcond =>
    constructor
    · simp
    · rw [show (("```".data ++ tag) :: (splitNL body ++ ["```".data])).getLastD []
          = "```".data by
        rw [List.getLastD_cons, getLastD_concat]]
      rw [show pyStrip "```".data = "```".data from rfl]
      decide
  rw [List.drop_one, List.tail_cons, List.dropLast_concat, joinNL_splitNL, hstrip]

theorem fenceWrap_data (tag body : String) :
    (fenceWrap tag body).data
      = "```".data ++ (tag.data ++ '\n' :: (body.data ++ '\n' :: "```".data)) := by
  simp [fenceWrap, String.data_append, List.append_assoc]

/-- C4: `clean_json_text` strips exactly one leading/trailing fenced block:
for any language tag (no line breaks) and any already-stripped body whose
only line breaks are plain newlines, cleaning the fenced wrapping returns
the body; the stripping is a single pass (a doubly fenced text keeps its
inner fence); and the scenario text with a fenced empty startup list parses
to the document with an empty `startups` array. -/
theorem fence_strip_single_pass (tag body : String)
    (htag : ∀ c ∈ tag.data, pyBreak c = false)
    (hbody : ∀ c ∈ body.data, c = '\n' ∨ pyBreak c = false)
    (hstrip : pyStripS body = body) :
    clean_json_text (fenceWrap tag body) = body
    ∧ clean_json_text "```\n```json\n\x7b\x7d\n```\n```" = "```json\n\x7b\x7d\n```"
    ∧ parse_json_response "```json\n\x7b\"startups\":[]\x7d\n```"
        = some (JVal.obj [("startups", JVal.arr [])]) := by
  refine ⟨?_, rfl, rfl⟩
  have hd : pyStrip body.data = body.data := congrArg String.data hstrip
  show String.mk (cleanCore (fenceWrap tag body).data) = body
  rw [fenceWrap_data, cleanCore_fence tag.data body.data htag hbody hd]

/-- Witness for C4 at tag `json` and body the scenario object text. -/
theorem fence_strip_single_pass_witness :
    clean_json_text (fenceWrap "json" "\x7b\"startups\":[]\x7d") = "\x7b\"startups\":[]\x7d" :=
  (fence_strip_single_pass "json" "\x7b\"startups\":[]\x7d" (by decide) (by decide) rfl).1

/-! ## Claim theorems: defensive rendering -/

/-- C8 counterexample: a startup entry whose `founders` field is the truthy
wrong-typed value `"x"` makes `render_startup_card` raise (iterating the
string yields one-character strings whose `.get` is an `AttributeError`),
so rendering does not tolerate every wrong-typed optional sub-field. -/
theorem render_wrong_typed_counterexample :
    render_startup_card (.obj [("founders", JVal.str "x")]) = .error () := rfl

/-- C8 (amended): rendering a startup entry never fails when every nested
optional sub-field is absent, falsy, or of the type the rendering code
consumes (missing and falsy fields render as their documented
defaults/placeholders); in particular an entry with no `founders` key
renders with an empty founder section.  Wrong-typed truthy sub-fields can
raise, as the counterexample shows. -/
theorem render_defensive_well_typed (entry : List (String × JVal))
    (hw : wellTypedEntry entry = true) :
    ∃ card, render_startup_card (.obj entry) = .ok card ∧
      (jLookup entry "founders" = none → card.founders = none) := by
  unfold wellTypedEntry at hw
  rw [Bool.and_eq_true, Bool.and_eq_true, Bool.and_eq_true, Bool.and_eq_true] at hw
  obtain ⟨⟨⟨⟨hWeb, hFound⟩, hOss⟩, hRoles⟩, hSrc⟩ := hw
  obtain ⟨w3, h3⟩ := pyStrAttr_ok hWeb
  obtain ⟨f9, h9⟩ :=
    @arrSec_ok _ _ _ renderFoundersSec (fun _ => rfl) (fun x hx => renderFounder_ok hx) hFound
  obtain ⟨l, hl, hrep⟩ := ossOk_shape hOss
  obtain ⟨r13, h13⟩ :=
    @arrSec_ok _ _ _ renderReposSec (fun _ => rfl) (fun x hx => renderRepo_ok hx) hrep
  obtain ⟨ro16, h16⟩ := renderRolesSec_ok hRoles
  obtain ⟨so19, h19⟩ :=
    @arrSec_ok _ _ _ renderSourcesSec (fun _ => rfl) (fun x hx => renderSource_ok hx) hSrc
  exact ⟨_,
    by unfold render_startup_card
       simp only [jGet_obj, ok_bind, h3, h9, hl, h13, h16, h19]
       rfl,
    by intro hnone
       have hnull : jGetD entry "founders" = .null := by
         unfold jGetD
         rw [hnone]
       have h9' : renderFoundersSec (pyOrJ (jGetD entry "founders") (.arr [])) = .ok none := by
         rw [hnull]
         rfl
       exact Except.ok.inj (h9.symm.trans h9')⟩

/-- Witness for C8 (amended): the empty entry is well typed, renders, and
has an empty founder section. -/
theorem render_defensive_well_typed_witness :
    wellTypedEntry [] = true ∧
    ∃ card, render_startup_card (.obj []) = .ok card ∧ card.founders = none := by
  refine ⟨rfl, ?_⟩
  obtain ⟨c, hc, hf⟩ := render_defensive_well_typed [] rfl
  exact ⟨c, hc, hf rfl⟩

/-! ## The serializer/parser round trip (towards C2) -/

theorem char_eq_of_toNat {c d : Char} (h : c.toNat = d.toNat) : c = d := by
  rw [← Char.ofNat_toNat c, ← Char.ofNat_toNat d, h]

theorem hexVal_hexDigit : ∀ k, k < 16 → hexVal (hexDigit k) = some k := by decide

theorem hexDigit_printable : ∀ k, k < 16 →
    32 ≤ (hexDigit k).toNat ∧ (hexDigit k).toNat < 127 := by decide

theorem skipWs_cons {c : Char} {l : List Char} (h : jsonWs c = false) :
    skipWs (c :: l) = c :: l :=
  dropWhile_cons_false h

theorem digit_ne {c : Char} (h : isDigit c = true) (d : Char) (hd : isDigit d = false) :
    c ≠ d := by
  rintro rfl
  rw [h] at hd
  cases hd

theorem digit_not_ws {c : Char} (h : isDigit c = true) :
    jsonWs c = false ∧ pyWs c = false ∧ pyBreak c = false := by
  simp only [isDigit, decide_eq_true_eq] at h
  refine ⟨?_, ?_, ?_⟩ <;>
    · simp only [jsonWs, pyWs, pyBreak, decide_eq_false_iff_not]
      omega

theorem takeWhile_append_sep {p : Char → Bool} :
    ∀ (a rest : List Char), (∀ c ∈ a, p c = true) →
    (∀ c, rest.head? = some c → p c = false) →
    (a ++ rest).takeWhile p = a ∧ (a ++ rest).dropWhile p = rest := by
  intro a
  induction a with
  | nil =>
    intro rest _ h2
    cases rest with
    | nil => exact ⟨rfl, rfl⟩
    | cons c r =>
      refine ⟨?_, ?_⟩
      · simp [List.takeWhile_cons, h2 c rfl]
      · simp [List.dropWhile_cons, h2 c rfl]
  | cons c t ih =>
    intro rest h1 h2
    obtain ⟨iht, ihd⟩ := ih rest (fun x hx => h1 x (List.mem_cons_of_mem c hx)) h2
    refine ⟨?_, ?_⟩
    · simp [List.takeWhile_cons, h1 c (List.mem_cons_self c t), iht]
    · simp [List.dropWhile_cons, h1 c (List.mem_cons_self c t), ihd]

theorem sepOk_nil : sepOk [] := by
  intro c h
  simp at h

theorem sepOk_cons {c : Char} (l : List Char)
    (h : isDigit c = false ∧ c ≠ '.' ∧ c ≠ 'e' ∧ c ≠ 'E' ∧ c ≠ '+' ∧ c ≠ '-') :
    sepOk (c :: l) := by
  intro d hd
  simp only [List.head?_cons, Option.some.injEq] at hd
  subst hd
  exact h

set_option maxHeartbeats 2000000 in
theorem parseStrBody_plain {c : Char} (r : List Char) (h1 : c ≠ '"') (h2 : c ≠ '\\') :
    parseStrBody (c :: r) =
      if c.toNat < 32 then none else (parseStrBody r).map (fun p => (c :: p.1, p.2)) := by
  rw [parseStrBody.eq_def]
  split <;> simp_all

set_option maxHeartbeats 2000000 in
theorem parseStrBody_u (a b c d : Char) (r : List Char) :
    parseStrBody ('\\' :: 'u' :: a :: b :: c :: d :: r) =
      match hexVal a, hexVal b, hexVal c, hexVal d with
      | some ha, some hb, some hc, some hd =>
        let v := ha * 4096 + hb * 256 + hc * 16 + hd
        if 55296 ≤ v ∧ v ≤ 56319 then
          match r with
          | '\\' :: 'u' :: a2 :: b2 :: c2 :: d2 :: r2 =>
            match hexVal a2, hexVal b2, hexVal c2, hexVal d2 with
            | some ha2, some hb2, some hc2, some hd2 =>
              let w := ha2 * 4096 + hb2 * 256 + hc2 * 16 + hd2
              if 56320 ≤ w ∧ w ≤ 57343 then
                (parseStrBody r2).map
                  (fun p => (Char.ofNat (65536 + (v - 55296) * 1024 + (w - 56320)) :: p.1, p.2))
              else none
            | _, _, _, _ => none
          | _ => none
        else if 56320 ≤ v ∧ v ≤ 57343 then none
        else (parseStrBody r).map (fun p => (Char.ofNat v :: p.1, p.2))
      | _, _, _, _ => none := by
  rw [parseStrBody.eq_def]
  rfl

set_option maxHeartbeats 1000000 in
theorem escU_round (n : Nat) (r : List Char) (hn : n < 65536)
    (hs1 : ¬(55296 ≤ n ∧ n ≤ 56319)) (hs2 : ¬(56320 ≤ n ∧ n ≤ 57343)) :
    parseStrBody (('\\' :: 'u' :: toHex4 n) ++ r)
      = (parseStrBody r).map (fun p => (Char.ofNat n :: p.1, p.2)) := by
  rw [show ('\\' :: 'u' :: toHex4 n) ++ r
      = '\\' :: 'u' :: hexDigit (n / 4096 % 16) :: hexDigit (n / 256 % 16)
        :: hexDigit (n / 16 % 16) :: hexDigit (n % 16) :: r from rfl]
  rw [parseStrBody_u]
  rw [show hexVal (hexDigit (n / 4096 % 16)) = some (n / 4096 % 16) from
        hexVal_hexDigit _ (by omega),
      show hexVal (hexDigit (n / 256 % 16)) = some (n / 256 % 16) from
        hexVal_hexDigit _ (by omega),
      show hexVal (hexDigit (n / 16 % 16)) = some (n / 16 % 16) from
        hexVal_hexDigit _ (by omega),
      show hexVal (hexDigit (n % 16)) = some (n % 16) from
        hexVal_hexDigit _ (by omega)]
  simp only []
  rw [show n / 4096 % 16 * 4096 + n / 256 % 16 * 256 + n / 16 % 16 * 16 + n % 16 = n from
        by omega,
      if_neg hs1, if_neg hs2]

set_option maxHeartbeats 1000000 in
theorem escPair_round (hi lo n : Nat) (r : List Char)
    (hhi : 55296 ≤ hi ∧ hi ≤ 56319) (hlo : 56320 ≤ lo ∧ lo ≤ 57343)
    (hn : 65536 + (hi - 55296) * 1024 + (lo - 56320) = n) :
    parseStrBody (('\\' :: 'u' :: toHex4 hi) ++ (('\\' :: 'u' :: toHex4 lo) ++ r))
      = (parseStrBody r).map (fun p => (Char.ofNat n :: p.1, p.2)) := by
  rw [show (('\\' :: 'u' :: toHex4 hi) ++ (('\\' :: 'u' :: toHex4 lo) ++ r))
      = '\\' :: 'u' :: hexDigit (hi / 4096 % 16) :: hexDigit (hi / 256 % 16)
        :: hexDigit (hi / 16 % 16) :: hexDigit (hi % 16)
        :: ('\\' :: 'u' :: hexDigit (lo / 4096 % 16) :: hexDigit (lo / 256 % 16)
        :: hexDigit (lo / 16 % 16) :: hexDigit (lo % 16) :: r) from rfl]
  rw [parseStrBody_u]
  rw [show hexVal (hexDigit (hi / 4096 % 16)) = some (hi / 4096 % 16) from
        hexVal_hexDigit _ (by omega),
      show hexVal (hexDigit (hi / 256 % 16)) = some (hi / 256 % 16) from
        hexVal_hexDigit _ (by omega),
      show hexVal (hexDigit (hi / 16 % 16)) = some (hi / 16 % 16) from
        hexVal_hexDigit _ (by omega),
      show hexVal (hexDigit (hi % 16)) = some (hi % 16) from
        hexVal_hexDigit _ (by omega)]
  simp only []
  rw [show hi / 4096 % 16 * 4096 + hi / 256 % 16 * 256 + hi / 16 % 16 * 16 + hi % 16 = hi from
        by omega,
      if_pos hhi]
  rw [show hexVal (hexDigit (lo / 4096 % 16)) = some (lo / 4096 % 16) from
        hexVal_hexDigit _ (by omega),
      show hexVal (hexDigit (lo / 256 % 16)) = some (lo / 256 % 16) from
        hexVal_hexDigit _ (by omega),
      show hexVal (hexDigit (lo / 16 % 16)) = some (lo / 16 % 16) from
        hexVal_hexDigit _ (by omega),
      show hexVal (hexDigit (lo % 16)) = some (lo % 16) from
        hexVal_hexDigit _ (by omega)]
  simp only []
  rw [show lo / 4096 % 16 * 4096 + lo / 256 % 16 * 256 + lo / 16 % 16 * 16 + lo % 16 = lo from
        by omega,
      if_pos hlo]
  rw [hn]

set_option maxHeartbeats 1000000 in
theorem parseStrBody_esc (c : Char) (r : List Char) :
    parseStrBody (escChar c ++ r) = (parseStrBody r).map (fun p => (c :: p.1, p.2)) := by
  by_cases h1 : c = '"'
  · subst h1; rfl
  by_cases h2 : c = '\\'
  · subst h2; rfl
  by_cases h8 : c.toNat = 8
  · rw [@char_eq_of_toNat c '\x08' h8]; rfl
  by_cases h9 : c.toNat = 9
  · rw [@char_eq_of_toNat c '\t' h9]; rfl
  by_cases h10 : c.toNat = 10
  · rw [@char_eq_of_toNat c '\n' h10]; rfl
  by_cases h12 : c.toNat = 12
  · rw [@char_eq_of_toNat c '\x0c' h12]; rfl
  by_cases h13 : c.toNat = 13
  · rw [@char_eq_of_toNat c '\x0d' h13]; rfl
  by_cases hlt : c.toNat < 32
  · have he : escChar c = '\\' :: 'u' :: toHex4 c.toNat := by
      unfold escChar
      rw [if_neg h1, if_neg h2, if_neg h8, if_neg h9, if_neg h10, if_neg h12, if_neg h13,
          if_pos hlt]
    rw [he, escU_round c.toNat r (by omega) (by omega) (by omega), Char.ofNat_toNat]
  by_cases h127 : c.toNat < 127
  · have he : escChar c = [c] := by
      unfold escChar
      rw [if_neg h1, if_neg h2, if_neg h8, if_neg h9, if_neg h10, if_neg h12, if_neg h13,
          if_neg hlt, if_pos h127]
    rw [he, List.singleton_append, parseStrBody_plain r h1 h2, if_neg (by omega)]
  have hval : Nat.isValidChar c.toNat := c.valid
  unfold Nat.isValidChar at hval
  by_cases h64k : c.toNat < 65536
  · have he : escChar c = '\\' :: 'u' :: toHex4 c.toNat := by
      unfold escChar
      rw [if_neg h1, if_neg h2, if_neg h8, if_neg h9, if_neg h10, if_neg h12, if_neg h13,
          if_neg hlt, if_neg h127, if_pos h64k]
    rw [he, escU_round c.toNat r h64k (by rcases hval with h | h <;> omega)
          (by rcases hval with h | h <;> omega), Char.ofNat_toNat]
  · have he : escChar c =
        ('\\' :: 'u' :: toHex4 (55296 + (c.toNat - 65536) / 1024)) ++
        ('\\' :: 'u' :: toHex4 (56320 + (c.toNat - 65536) % 1024)) := by
      unfold escChar
      rw [if_neg h1, if_neg h2, if_neg h8, if_neg h9, if_neg h10, if_neg h12, if_neg h13,
          if_neg hlt, if_neg h127, if_neg h64k]
    have hmod : (c.toNat - 65536) % 1024 < 1024 := Nat.mod_lt _ (by omega)
    rw [he, List.append_assoc,
        escPair_round (55296 + (c.toNat - 65536) / 1024) (56320 + (c.toNat - 65536) % 1024)
          c.toNat r (by constructor <;> omega) (by constructor <;> omega)
          (by rcases hval with h | h <;> omega),
        Char.ofNat_toNat]

theorem parseStrBody_ser : ∀ (l : List Char) (r : List Char),
    parseStrBody (l.flatMap escChar ++ ('"' :: r)) = some (l, r) := by
  intro l
  induction l with
  | nil => intro r; rfl
  | cons c t ih =>
    intro r
    rw [show ((c :: t).flatMap escChar) = escChar c ++ t.flatMap escChar from rfl,
        List.append_assoc, parseStrBody_esc, ih]
    rfl

theorem parseIntDigits_cons {c : Char} (r : List Char) (h : c ≠ '0') :
    parseIntDigits (c :: r) =
      if isDigit c then some (c :: r.takeWhile isDigit, r.dropWhile isDigit) else none := by
  rw [parseIntDigits.eq_def]
  split <;> simp_all

theorem parseFrac_no_dot {s : List Char} (h : ∀ c, s.head? = some c → c ≠ '.') :
    parseFrac s = ([], s) := by
  rw [parseFrac.eq_def]
  split
  · exact absurd rfl (h '.' rfl)
  · rfl

theorem parseExp_no_e {s : List Char} (h : ∀ c, s.head? = some c → c ≠ 'e' ∧ c ≠ 'E') :
    parseExp s = (none, s) := by
  cases s with
  | nil => rfl
  | cons c r =>
    obtain ⟨h1, h2⟩ := h c rfl
    simp only [parseExp]
    rw [if_neg (not_or.mpr ⟨h1, h2⟩)]

theorem parseExp_neg (ed rest : List Char) (hne : ed ≠ [])
    (hdig : ∀ c ∈ ed, isDigit c = true)
    (hrest : ∀ c, rest.head? = some c → isDigit c = false) :
    parseExp ('e' :: '-' :: (ed ++ rest)) = (some (true, ed), rest) := by
  rcases ed with _ | ⟨d, t⟩
  · exact absurd rfl hne
  obtain ⟨ht, hd⟩ := takeWhile_append_sep (d :: t) rest hdig hrest
  simp only [parseExp]
  rw [if_pos (Or.inl trivial), ht, hd]
  rw [if_neg (by simp)]

theorem parseExp_nosign (ed rest : List Char) (hne : ed ≠ [])
    (hdig : ∀ c ∈ ed, isDigit c = true)
    (hrest : ∀ c, rest.head? = some c → isDigit c = false) :
    parseExp ('e' :: (ed ++ rest)) = (some (false, ed), rest) := by
  rcases ed with _ | ⟨d, t⟩
  · exact absurd rfl hne
  obtain ⟨ht, hd⟩ := takeWhile_append_sep (d :: t) rest hdig hrest
  have hd1 : isDigit d = true := hdig d (List.mem_cons_self d t)
  simp only [parseExp]
  rw [if_pos (Or.inl trivial)]
  split
  · rename_i r2 heq
    injection heq with hh _
    rw [hh] at hd1
    exact absurd hd1 (by decide)
  · rename_i r2 heq
    injection heq with hh _
    rw [hh] at hd1
    exact absurd hd1 (by decide)
  · rw [ht, hd, if_neg (by simp)]

theorem parseNum_ser (neg : Bool) (ip fp : List Char) (ex : Option (Bool × List Char))
    (rest : List Char) (hv : numValid ip fp ex = true) (hsep : sepOk rest) :
    parseNum neg (ip ++ (serFrac fp ++ (serExp ex ++ rest)))
      = some (.num neg ip fp ex, rest) := by
  have hrestd : ∀ c, rest.head? = some c → isDigit c = false := fun c hc => (hsep c hc).1
  have hU : ∀ c, (serExp ex ++ rest).head? = some c → isDigit c = false ∧ c ≠ '.' := by
    rcases ex with _ | ⟨en, ed⟩
    · intro c hc
      rw [show serExp none = [] from rfl, List.nil_append] at hc
      exact ⟨(hsep c hc).1, (hsep c hc).2.1⟩
    · intro c hc
      rw [show serExp (some (en, ed)) = 'e' :: ((if en then ['-'] else []) ++ ed) from rfl] at hc
      simp only [List.cons_append, List.head?_cons, Option.some.injEq] at hc
      subst hc
      exact ⟨by decide, by decide⟩
  have hT : ∀ c, (serFrac fp ++ (serExp ex ++ rest)).head? = some c → isDigit c = false := by
    rcases fp with _ | ⟨d, t⟩
    · intro c hc
      rw [show serFrac [] = [] from rfl, List.nil_append] at hc
      exact (hU c hc).1
    · intro c hc
      rw [show serFrac (d :: t) = '.' :: (d :: t) from rfl] at hc
      simp only [List.cons_append, List.head?_cons, Option.some.injEq] at hc
      subst hc
      decide
  simp only [numValid, Bool.and_eq_true, decide_eq_true_eq] at hv
  obtain ⟨⟨hip, hfp⟩, hex⟩ := hv
  have hInt : parseIntDigits (ip ++ (serFrac fp ++ (serExp ex ++ rest)))
      = some (ip, serFrac fp ++ (serExp ex ++ rest)) := by
    rcases hip with h0 | ⟨hne, hdig, hhd⟩
    · subst h0
      rfl
    · rcases ip with _ | ⟨d, t⟩
      · exact absurd rfl hne
      simp only [List.all_eq_true] at hdig
      have hdd : isDigit d = true := hdig d (List.mem_cons_self d t)
      have hd0 : d ≠ '0' := by
        intro h
        subst h
        exact hhd rfl
      obtain ⟨ht', hd'⟩ := takeWhile_append_sep t (serFrac fp ++ (serExp ex ++ rest))
        (fun x hx => hdig x (List.mem_cons_of_mem d hx)) hT
      rw [show (d :: t) ++ (serFrac fp ++ (serExp ex ++ rest))
            = d :: (t ++ (serFrac fp ++ (serExp ex ++ rest))) from rfl,
          parseIntDigits_cons _ hd0, if_pos hdd, ht', hd']
  have hFr : parseFrac (serFrac fp ++ (serExp ex ++ rest)) = (fp, serExp ex ++ rest) := by
    rcases fp with _ | ⟨d, t⟩
    · rw [show serFrac [] = [] from rfl, List.nil_append]
      exact parseFrac_no_dot (fun c hc => (hU c hc).2)
    · simp only [List.all_eq_true] at hfp
      obtain ⟨ht', hd'⟩ := takeWhile_append_sep (d :: t) (serExp ex ++ rest) hfp
        (fun c hc => (hU c hc).1)
      rw [show serFrac (d :: t) ++ (serExp ex ++ rest)
            = '.' :: ((d :: t) ++ (serExp ex ++ rest)) from rfl]
      simp only [parseFrac]
      rw [ht', hd', if_neg (by simp)]
  have hEx : parseExp (serExp ex ++ rest) = (ex, rest) := by
    rcases ex with _ | ⟨en, ed⟩
    · rw [show serExp none = [] from rfl, List.nil_append]
      exact parseExp_no_e (fun c hc => ⟨(hsep c hc).2.2.1, (hsep c hc).2.2.2.1⟩)
    · simp only [Bool.and_eq_true, decide_eq_true_eq, List.all_eq_true] at hex
      obtain ⟨hne, hdig⟩ := hex
      cases en
      · exact parseExp_nosign ed rest hne hdig hrestd
      · exact parseExp_neg ed rest hne hdig hrestd
  simp only [parseNum]
  rw [hInt]
  simp only [hFr, hEx]

theorem parseVal_succ (f : Nat) (s : List Char) :
    parseVal (f + 1) s =
      match skipWs s with
      | 'n' :: 'u' :: 'l' :: 'l' :: r => some (.null, r)
      | 't' :: 'r' :: 'u' :: 'e' :: r => some (.bool true, r)
      | 'f' :: 'a' :: 'l' :: 's' :: 'e' :: r => some (.bool false, r)
      | 'N' :: 'a' :: 'N' :: r => some (.nanV, r)
      | 'I' :: 'n' :: 'f' :: 'i' :: 'n' :: 'i' :: 't' :: 'y' :: r => some (.infV false, r)
      | '-' :: 'I' :: 'n' :: 'f' :: 'i' :: 'n' :: 'i' :: 't' :: 'y' :: r => some (.infV true, r)
      | '"' :: r => (parseStrBody r).map (fun p => (.str (String.mk p.1), p.2))
      | '[' :: r => (parseArr f r).map (fun p => (.arr p.1, p.2))
      | '\x7b' :: r => (parseObj f r).map (fun p => (.obj p.1, p.2))
      | '-' :: r => parseNum true r
      | s' => parseNum false s' := by
  rw [parseVal.eq_def]

theorem parseArr_succ (f : Nat) (s : List Char) :
    parseArr (f + 1) s =
      match skipWs s with
      | ']' :: r => some ([], r)
      | s' =>
          match parseVal f s' with
          | none => none
          | some (v, r1) => (parseArrTail f r1).map (fun p => (v :: p.1, p.2)) := by
  rw [parseArr.eq_def]

theorem parseArrTail_succ (f : Nat) (s : List Char) :
    parseArrTail (f + 1) s =
      match skipWs s with
      | ']' :: r => some ([], r)
      | ',' :: r =>
          match parseVal f r with
          | none => none
          | some (v, r1) => (parseArrTail f r1).map (fun p => (v :: p.1, p.2))
      | _ => none := by
  rw [parseArrTail.eq_def]

theorem parseObj_succ (f : Nat) (s : List Char) :
    parseObj (f + 1) s =
      match skipWs s with
      | '\x7d' :: r => some ([], r)
      | '"' :: r =>
          match parseStrBody r with
          | none => none
          | some (k, r1) =>
              match skipWs r1 with
              | ':' :: r2 =>
                  match parseVal f r2 with
                  | none => none
                  | some (v, r3) =>
                      (parseObjTail f r3).map (fun p => ((String.mk k, v) :: p.1, p.2))
              | _ => none
      | _ => none := by
  rw [parseObj.eq_def]

theorem parseObjTail_succ (f : Nat) (s : List Char) :
    parseObjTail (f + 1) s =
      match skipWs s with
      | '\x7d' :: r => some ([], r)
      | ',' :: r =>
          match skipWs r with
          | '"' :: r1 =>
              match parseStrBody r1 with
              | none => none
              | some (k, r2) =>
                  match skipWs r2 with
                  | ':' :: r3 =>
                      match parseVal f r3 with
                      | none => none
                      | some (v, r4) =>
                          (parseObjTail f r4).map (fun p => ((String.mk k, v) :: p.1, p.2))
                  | _ => none
          | _ => none
      | _ => none := by
  rw [parseObjTail.eq_def]

theorem digit_cases {c : Char} (h : isDigit c = true) :
    c = '0' ∨ c = '1' ∨ c = '2' ∨ c = '3' ∨ c = '4' ∨ c = '5' ∨ c = '6' ∨ c = '7' ∨
    c = '8' ∨ c = '9' := by
  simp only [isDigit, decide_eq_true_eq] at h
  have h0 : c.toNat = 48 ∨ c.toNat = 49 ∨ c.toNat = 50 ∨ c.toNat = 51 ∨ c.toNat = 52 ∨
      c.toNat = 53 ∨ c.toNat = 54 ∨ c.toNat = 55 ∨ c.toNat = 56 ∨ c.toNat = 57 := by omega
  rcases h0 with h | h | h | h | h | h | h | h | h | h
  · exact Or.inl (char_eq_of_toNat h)
  · exact Or.inr (Or.inl (char_eq_of_toNat h))
  · exact Or.inr (Or.inr (Or.inl (char_eq_of_toNat h)))
  · exact Or.inr (Or.inr (Or.inr (Or.inl (char_eq_of_toNat h))))
  · exact Or.inr (Or.inr (Or.inr (Or.inr (Or.inl (char_eq_of_toNat h)))))
  · exact Or.inr (Or.inr (Or.inr (Or.inr (Or.inr (Or.inl (char_eq_of_toNat h))))))
  · exact Or.inr (Or.inr (Or.inr (Or.inr (Or.inr (Or.inr (Or.inl (char_eq_of_toNat h)))))))
  · exact Or.inr (Or.inr (Or.inr (Or.inr (Or.inr (Or.inr (Or.inr
      (Or.inl (char_eq_of_toNat h))))))))
  · exact Or.inr (Or.inr (Or.inr (Or.inr (Or.inr (Or.inr (Or.inr (Or.inr
      (Or.inl (char_eq_of_toNat h)))))))))
  · exact Or.inr (Or.inr (Or.inr (Or.inr (Or.inr (Or.inr (Or.inr (Or.inr (Or.inr
      (char_eq_of_toNat h)))))))))

set_option maxHeartbeats 2000000 in
theorem parseVal_digit (f : Nat) (c : Char) (r : List Char) (h : isDigit c = true) :
    parseVal (f + 1) (c :: r) = parseNum false (c :: r) := by
  rw [parseVal_succ, skipWs_cons (digit_not_ws h).1]
  rcases digit_cases h with rfl | rfl | rfl | rfl | rfl | rfl | rfl | rfl | rfl | rfl <;> rfl

set_option maxHeartbeats 2000000 in
theorem parseVal_neg_digit (f : Nat) (c : Char) (r : List Char) (h : isDigit c = true) :
    parseVal (f + 1) ('-' :: c :: r) = parseNum true (c :: r) := by
  rw [parseVal_succ, skipWs_cons (by decide)]
  rcases digit_cases h with rfl | rfl | rfl | rfl | rfl | rfl | rfl | rfl | rfl | rfl <;> rfl

theorem parseArr_cons (f : Nat) (c : Char) (r : List Char) (hws : jsonWs c = false)
    (hc : c ≠ ']') (v : JVal) (r1 : List Char)
    (hpv : parseVal f (c :: r) = some (v, r1)) :
    parseArr (f + 1) (c :: r) = (parseArrTail f r1).map (fun p => (v :: p.1, p.2)) := by
  rw [parseArr_succ, skipWs_cons hws]
  split
  · simp_all
  · rw [hpv]

theorem sepOk_serArrTail (t : List JVal) (rest : List Char) : sepOk (serArrTail t ++ rest) := by
  cases t
  · exact sepOk_cons _ (by decide)
  · exact sepOk_cons _ (by decide)

theorem sepOk_serObjTail (t : List (String × JVal)) (rest : List Char) :
    sepOk (serObjTail t ++ rest) := by
  cases t
  · exact sepOk_cons _ (by decide)
  · exact sepOk_cons _ (by decide)

theorem numValid_head {ip fp : List Char} {ex : Option (Bool × List Char)}
    (hv : numValid ip fp ex = true) : ∃ d t, ip = d :: t ∧ isDigit d = true := by
  simp only [numValid, Bool.and_eq_true, decide_eq_true_eq] at hv
  obtain ⟨⟨hip, _⟩, _⟩ := hv
  rcases hip with h0 | ⟨hne, hdig, _⟩
  · exact ⟨'0', [], h0, by decide⟩
  · rcases ip with _ | ⟨d, t⟩
    · exact absurd rfl hne
    simp only [List.all_eq_true] at hdig
    exact ⟨d, t, rfl, hdig d (List.mem_cons_self d t)⟩

theorem serialize_head (v : JVal) (hv : validJ v = true) :
    ∃ c r, serialize v = c :: r ∧ jsonWs c = false ∧ pyWs c = false ∧ c ≠ bq ∧
      c ≠ ']' ∧ c ≠ '\x7d' := by
  cases v with
  | null => exact ⟨'n', _, rfl, by decide, by decide, by decide, by decide, by decide⟩
  | bool b =>
    cases b
    · exact ⟨'f', _, rfl, by decide, by decide, by decide, by decide, by decide⟩
    · exact ⟨'t', _, rfl, by decide, by decide, by decide, by decide, by decide⟩
  | num neg ip fp ex =>
    obtain ⟨d, t, hip, hd⟩ := numValid_head (show numValid ip fp ex = true from hv)
    subst hip
    cases neg
    · exact ⟨d, _, rfl, (digit_not_ws hd).1, (digit_not_ws hd).2.1,
        digit_ne hd bq (by decide), digit_ne hd ']' (by decide), digit_ne hd '\x7d' (by decide)⟩
    · exact ⟨'-', _, rfl, by decide, by decide, by decide, by decide, by decide⟩
  | str s => exact ⟨'"', _, rfl, by decide, by decide, by decide, by decide, by decide⟩
  | arr l => exact ⟨'[', _, rfl, by decide, by decide, by decide, by decide, by decide⟩
  | obj m => exact ⟨'\x7b', _, rfl, by decide, by decide, by decide, by decide, by decide⟩
  | nanV => exact ⟨'N', _, rfl, by decide, by decide, by decide, by decide, by decide⟩
  | infV b =>
    cases b
    · exact ⟨'I', _, rfl, by decide, by decide, by decide, by decide, by decide⟩
    · exact ⟨'-', _, rfl, by decide, by decide, by decide, by decide, by decide⟩

theorem and_true_split {a b : Bool} (h : (a && b) = true) : a = true ∧ b = true := by
  rw [Bool.and_eq_true] at h
  exact h

set_option maxHeartbeats 4000000 in
theorem parse_ser : ∀ f : Nat,
    (∀ v rest, validJ v = true → sepOk rest → need v ≤ f →
        parseVal f (serialize v ++ rest) = some (v, rest))
    ∧ (∀ l rest, validL l = true → needL l ≤ f →
        parseArr f (serArrBody l ++ rest) = some (l, rest))
    ∧ (∀ l rest, validL l = true → needL l ≤ f →
        parseArrTail f (serArrTail l ++ rest) = some (l, rest))
    ∧ (∀ m rest, validM m = true → needM m ≤ f →
        parseObj f (serObjBody m ++ rest) = some (m, rest))
    ∧ (∀ m rest, validM m = true → needM m ≤ f →
        parseObjTail f (serObjTail m ++ rest) = some (m, rest)) := by
  intro f
  induction f with
  | zero =>
    refine ⟨?_, ?_, ?_, ?_, ?_⟩
    · intro v rest _ _ hf
      exact absurd hf (by cases v <;> simp [need])
    · intro l rest _ hf
      exact absurd hf (by cases l <;> simp [needL])
    · intro l rest _ hf
      exact absurd hf (by cases l <;> simp [needL])
    · intro m rest _ hf
      exact absurd hf (by cases m <;> simp [needM])
    · intro m rest _ hf
      exact absurd hf (by cases m <;> simp [needM])
  | succ f ih =>
    obtain ⟨ihV, ihA, ihAT, ihO, ihOT⟩ := ih
    refine ⟨?_, ?_, ?_, ?_, ?_⟩
    · intro v rest hv hsep hf
      cases v with
      | null =>
        rw [show serialize JVal.null ++ rest = 'n' :: 'u' :: 'l' :: 'l' :: rest from rfl,
            parseVal_succ, skipWs_cons (by decide)]
        rfl
      | bool b =>
        cases b
        · rw [show serialize (JVal.bool false) ++ rest
                = 'f' :: 'a' :: 'l' :: 's' :: 'e' :: rest from rfl,
              parseVal_succ, skipWs_cons (by decide)]
          rfl
        · rw [show serialize (JVal.bool true) ++ rest
                = 't' :: 'r' :: 'u' :: 'e' :: rest from rfl,
              parseVal_succ, skipWs_cons (by decide)]
          rfl
      | nanV =>
        rw [show serialize JVal.nanV ++ rest = 'N' :: 'a' :: 'N' :: rest from rfl,
            parseVal_succ, skipWs_cons (by decide)]
        rfl
      | infV b =>
        cases b
        · rw [show serialize (JVal.infV false) ++ rest
                = 'I' :: 'n' :: 'f' :: 'i' :: 'n' :: 'i' :: 't' :: 'y' :: rest from rfl,
              parseVal_succ, skipWs_cons (by decide)]
          rfl
        · rw [show serialize (JVal.infV true) ++ rest
                = '-' :: 'I' :: 'n' :: 'f' :: 'i' :: 'n' :: 'i' :: 't' :: 'y' :: rest from rfl,
              parseVal_succ, skipWs_cons (by decide)]
          rfl
      | str s =>
        rw [show serialize (JVal.str s) ++ rest
              = '"' :: (s.data.flatMap escChar ++ ('"' :: rest)) from by
                simp [serialize, serStr, List.append_assoc],
            parseVal_succ, skipWs_cons (by decide)]
        show (parseStrBody (s.data.flatMap escChar ++ ('"' :: rest))).map
            (fun p => (JVal.str (String.mk p.1), p.2)) = some (JVal.str s, rest)
        rw [parseStrBody_ser]
        rfl
      | num neg ip fp ex =>
        have hv' : numValid ip fp ex = true := hv
        obtain ⟨d, t, hip, hd⟩ := numValid_head hv'
        subst hip
        cases neg
        · rw [show serialize (JVal.num false (d :: t) fp ex) ++ rest
                = d :: (t ++ (serFrac fp ++ (serExp ex ++ rest))) from by
                  simp [serialize, serNumBody, List.append_assoc],
              parseVal_digit f d _ hd]
          exact parseNum_ser false (d :: t) fp ex rest hv' hsep
        · rw [show serialize (JVal.num true (d :: t) fp ex) ++ rest
                = '-' :: (d :: (t ++ (serFrac fp ++ (serExp ex ++ rest)))) from by
                  simp [serialize, serNumBody, List.append_assoc],
              parseVal_neg_digit f d _ hd]
          exact parseNum_ser true (d :: t) fp ex rest hv' hsep
      | arr l =>
        have hvl : validL l = true := hv
        have hfl : needL l ≤ f := by
          rw [show need (JVal.arr l) = 1 + needL l from rfl] at hf
          omega
        rw [show serialize (JVal.arr l) ++ rest = '[' :: (serArrBody l ++ rest) from rfl,
            parseVal_succ, skipWs_cons (by decide)]
        show (parseArr f (serArrBody l ++ rest)).map (fun p => (JVal.arr p.1, p.2))
            = some (JVal.arr l, rest)
        rw [ihA l rest hvl hfl]
        rfl
      | obj m =>
        have hvm : validM m = true :=
          (and_true_split (show (keysDistinct m && validM m) = true from hv)).2
        have hfm : needM m ≤ f := by
          rw [show need (JVal.obj m) = 1 + needM m from rfl] at hf
          omega
        rw [show serialize (JVal.obj m) ++ rest = '\x7b' :: (serObjBody m ++ rest) from rfl,
            parseVal_succ, skipWs_cons (by decide)]
        show (parseObj f (serObjBody m ++ rest)).map (fun p => (JVal.obj p.1, p.2))
            = some (JVal.obj m, rest)
        rw [ihO m rest hvm hfm]
        rfl
    · intro l rest hvl hfl
      cases l with
      | nil =>
        rw [show serArrBody [] ++ rest = ']' :: rest from rfl,
            parseArr_succ, skipWs_cons (by decide)]
        rfl
      | cons v t =>
        obtain ⟨hv1, hvt⟩ := and_true_split
          (show (validJ v && validL t) = true from hvl)
        rw [show needL (v :: t) = 1 + need v + needL t from rfl] at hfl
        obtain ⟨c, r, hsr, hws, _, _, hne1, _⟩ := serialize_head v hv1
        have hpv : parseVal f (serialize v ++ (serArrTail t ++ rest))
            = some (v, serArrTail t ++ rest) :=
          ihV v _ hv1 (sepOk_serArrTail t rest) (by omega)
        rw [hsr, List.cons_append] at hpv
        rw [show serArrBody (v :: t) ++ rest = serialize v ++ (serArrTail t ++ rest) from by
              simp [serArrBody, List.append_assoc],
            hsr, List.cons_append,
            parseArr_cons f c _ hws hne1 v _ hpv,
            ihAT t rest hvt (by omega)]
        rfl
    · intro l rest hvl hfl
      cases l with
      | nil =>
        rw [show serArrTail [] ++ rest = ']' :: rest from rfl,
            parseArrTail_succ, skipWs_cons (by decide)]
        rfl
      | cons v t =>
        obtain ⟨hv1, hvt⟩ := and_true_split
          (show (validJ v && validL t) = true from hvl)
        rw [show needL (v :: t) = 1 + need v + needL t from rfl] at hfl
        rw [show serArrTail (v :: t) ++ rest
              = ',' :: (serialize v ++ (serArrTail t ++ rest)) from by
                simp [serArrTail, List.append_assoc],
            parseArrTail_succ, skipWs_cons (by decide)]
        show (match parseVal f (serialize v ++ (serArrTail t ++ rest)) with
            | none => none
            | some (vv, r1) => (parseArrTail f r1).map (fun p => (vv :: p.1, p.2)))
            = some (v :: t, rest)
        rw [ihV v _ hv1 (sepOk_serArrTail t rest) (by omega)]
        show (parseArrTail f (serArrTail t ++ rest)).map (fun p => (v :: p.1, p.2))
            = some (v :: t, rest)
        rw [ihAT t rest hvt (by omega)]
        rfl
    · intro m rest hvm hfm
      cases m with
      | nil =>
        rw [show serObjBody [] ++ rest = '\x7d' :: rest from rfl,
            parseObj_succ, skipWs_cons (by decide)]
        rfl
      | cons p t =>
        obtain ⟨k, v⟩ := p
        obtain ⟨hv1, hvt⟩ := and_true_split
          (show (validJ v && validM t) = true from hvm)
        rw [show needM ((k, v) :: t) = 1 + need v + needM t from rfl] at hfm
        rw [show serObjBody ((k, v) :: t) ++ rest
              = '"' :: (k.data.flatMap escChar ++
                  ('"' :: (':' :: (serialize v ++ (serObjTail t ++ rest))))) from by
                simp [serObjBody, serStr, List.append_assoc],
            parseObj_succ, skipWs_cons (by decide)]
        show (match parseStrBody (k.data.flatMap escChar ++
              ('"' :: (':' :: (serialize v ++ (serObjTail t ++ rest))))) with
            | none => none
            | some (kk, r1) =>
                match skipWs r1 with
                | ':' :: r2 =>
                    match parseVal f r2 with
                    | none => none
                    | some (vv, r3) =>
                        (parseObjTail f r3).map (fun p => ((String.mk kk, vv) :: p.1, p.2))
                | _ => none)
            = some ((k, v) :: t, rest)
        rw [parseStrBody_ser]
        show (match parseVal f (serialize v ++ (serObjTail t ++ rest)) with
            | none => none
            | some (vv, r3) =>
                (parseObjTail f r3).map (fun p => ((String.mk k.data, vv) :: p.1, p.2)))
            = some ((k, v) :: t, rest)
        rw [ihV v _ hv1 (sepOk_serObjTail t rest) (by omega)]
        show (parseObjTail f (serObjTail t ++ rest)).map
            (fun p => ((String.mk k.data, v) :: p.1, p.2)) = some ((k, v) :: t, rest)
        rw [ihOT t rest hvt (by omega)]
        rfl
    · intro m rest hvm hfm
      cases m with
      | nil =>
        rw [show serObjTail [] ++ rest = '\x7d' :: rest from rfl,
            parseObjTail_succ, skipWs_cons (by decide)]
        rfl
      | cons p t =>
        obtain ⟨k, v⟩ := p
        obtain ⟨hv1, hvt⟩ := and_true_split
          (show (validJ v && validM t) = true from hvm)
        rw [show needM ((k, v) :: t) = 1 + need v + needM t from rfl] at hfm
        rw [show serObjTail ((k, v) :: t) ++ rest
              = ',' :: ('"' :: (k.data.flatMap escChar ++
                  ('"' :: (':' :: (serialize v ++ (serObjTail t ++ rest)))))) from by
                simp [serObjTail, serStr, List.append_assoc],
            parseObjTail_succ, skipWs_cons (by decide)]
        show (match parseStrBody (k.data.flatMap escChar ++
              ('"' :: (':' :: (serialize v ++ (serObjTail t ++ rest))))) with
            | none => none
            | some (kk, r2) =>
                match skipWs r2 with
                | ':' :: r3 =>
                    match parseVal f r3 with
                    | none => none
                    | some (vv, r4) =>
                        (parseObjTail f r4).map (fun p => ((String.mk kk, vv) :: p.1, p.2))
                | _ => none)
            = some ((k, v) :: t, rest)
        rw [parseStrBody_ser]
        show (match parseVal f (serialize v ++ (serObjTail t ++ rest)) with
            | none => none
            | some (vv, r4) =>
                (parseObjTail f r4).map (fun p => ((String.mk k.data, vv) :: p.1, p.2)))
            = some ((k, v) :: t, rest)
        rw [ihV v _ hv1 (sepOk_serObjTail t rest) (by omega)]
        show (parseObjTail f (serObjTail t ++ rest)).map
            (fun p => ((String.mk k.data, v) :: p.1, p.2)) = some ((k, v) :: t, rest)
        rw [ihOT t rest hvt (by omega)]
        rfl

theorem serArrTail_concat : ∀ l : List JVal, ∃ i, serArrTail l = i ++ [']'] := by
  intro l
  induction l with
  | nil => exact ⟨[], rfl⟩
  | cons v t ih =>
    obtain ⟨i, hi⟩ := ih
    exact ⟨',' :: (serialize v ++ i), by simp [serArrTail, hi]⟩

theorem serArrBody_concat (l : List JVal) : ∃ i, serArrBody l = i ++ [']'] := by
  cases l with
  | nil => exact ⟨[], rfl⟩
  | cons v t =>
    obtain ⟨i, hi⟩ := serArrTail_concat t
    exact ⟨serialize v ++ i, by simp [serArrBody, hi]⟩

theorem serObjTail_concat : ∀ m : List (String × JVal), ∃ i, serObjTail m = i ++ ['\x7d'] := by
  intro m
  induction m with
  | nil => exact ⟨[], rfl⟩
  | cons p t ih =>
    obtain ⟨i, hi⟩ := ih
    exact ⟨',' :: (serStr p.1 ++ ':' :: (serialize p.2 ++ i)), by
      rcases p with ⟨k, v⟩
      simp [serObjTail, hi]⟩

theorem serObjBody_concat (m : List (String × JVal)) : ∃ i, serObjBody m = i ++ ['\x7d'] := by
  cases m with
  | nil => exact ⟨[], rfl⟩
  | cons p t =>
    obtain ⟨i, hi⟩ := serObjTail_concat t
    exact ⟨serStr p.1 ++ ':' :: (serialize p.2 ++ i), by
      rcases p with ⟨k, v⟩
      simp [serObjBody, hi]⟩

theorem numValid_digits {ip fp : List Char} {ex : Option (Bool × List Char)}
    (hv : numValid ip fp ex = true) :
    (∀ c ∈ ip, isDigit c = true) ∧ (∀ c ∈ fp, isDigit c = true) ∧ ip ≠ [] := by
  simp only [numValid, Bool.and_eq_true, decide_eq_true_eq] at hv
  obtain ⟨⟨hip, hfp⟩, _⟩ := hv
  simp only [List.all_eq_true] at hfp
  rcases hip with h0 | ⟨hne, hdig, _⟩
  · subst h0
    exact ⟨by intro c hc; simp at hc; subst hc; decide, hfp, by simp⟩
  · simp only [List.all_eq_true] at hdig
    exact ⟨hdig, hfp, hne⟩

theorem serialize_last (v : JVal) (hv : validJ v = true) :
    ∀ c, (serialize v).getLast? = some c → pyWs c = false := by
  cases v with
  | null =>
    intro c hc
    rw [show (serialize JVal.null).getLast? = some 'l' from rfl] at hc
    cases hc
    decide
  | bool b =>
    cases b <;> (intro c hc)
    · rw [show (serialize (JVal.bool false)).getLast? = some 'e' from rfl] at hc
      cases hc
      decide
    · rw [show (serialize (JVal.bool true)).getLast? = some 'e' from rfl] at hc
      cases hc
      decide
  | nanV =>
    intro c hc
    rw [show (serialize JVal.nanV).getLast? = some 'N' from rfl] at hc
    cases hc
    decide
  | infV b =>
    cases b <;> (intro c hc)
    · rw [show (serialize (JVal.infV false)).getLast? = some 'y' from rfl] at hc
      cases hc
      decide
    · rw [show (serialize (JVal.infV true)).getLast? = some 'y' from rfl] at hc
      cases hc
      decide
  | str s =>
    intro c hc
    rw [show serialize (JVal.str s) = ('"' :: s.data.flatMap escChar) ++ ['"'] from by
          simp [serialize, serStr],
        List.getLast?_concat] at hc
    cases hc
    decide
  | arr l =>
    intro c hc
    obtain ⟨i, hi⟩ := serArrBody_concat l
    rw [show serialize (JVal.arr l) = '[' :: serArrBody l from rfl, hi,
        show '[' :: (i ++ [']']) = ('[' :: i) ++ [']'] from rfl,
        List.getLast?_concat] at hc
    cases hc
    decide
  | obj m =>
    intro c hc
    obtain ⟨i, hi⟩ := serObjBody_concat m
    rw [show serialize (JVal.obj m) = '\x7b' :: serObjBody m from rfl, hi,
        show '\x7b' :: (i ++ ['\x7d']) = ('\x7b' :: i) ++ ['\x7d'] from rfl,
        List.getLast?_concat] at hc
    cases hc
    decide
  | num neg ip fp ex =>
    intro c hc
    obtain ⟨hipd, hfpd, hipne⟩ := numValid_digits (show numValid ip fp ex = true from hv)
    rw [show serialize (JVal.num neg ip fp ex)
          = (if neg then ['-'] else []) ++ (ip ++ (serFrac fp ++ serExp ex)) from rfl] at hc
    rcases ex with _ | ⟨en, ed⟩
    · rcases fp with _ | ⟨d, t⟩
      · rw [show serFrac [] ++ serExp none = ([] : List Char) from rfl,
            List.append_nil,
            List.getLast?_append_of_ne_nil _ hipne] at hc
        exact (digit_not_ws (hipd c (List.mem_of_mem_getLast? hc))).2.1
      · rw [show serFrac (d :: t) ++ serExp none = ['.'] ++ (d :: t) from by
              simp [serFrac, serExp],
            List.getLast?_append_of_ne_nil _ (by simp),
            List.getLast?_append_of_ne_nil _ (by simp),
            List.getLast?_append_of_ne_nil _ (by simp)] at hc
        exact (digit_not_ws (hfpd c (List.mem_of_mem_getLast? hc))).2.1
    · have hed : ed ≠ [] ∧ ∀ c ∈ ed, isDigit c = true := by
        have h := hv
        simp only [validJ, numValid, Bool.and_eq_true, decide_eq_true_eq,
          List.all_eq_true] at h
        exact ⟨h.2.1, h.2.2⟩
      rw [show serFrac fp ++ serExp (some (en, ed))
            = serFrac fp ++ (('e' :: (if en then ['-'] else [])) ++ ed) from by
              simp [serExp],
          List.getLast?_append_of_ne_nil _ (by
            intro hemp
            exact hipne (List.append_eq_nil.mp hemp).1),
          List.getLast?_append_of_ne_nil _ (by simp),
          List.getLast?_append_of_ne_nil _ (by simp),
          List.getLast?_append_of_ne_nil _ hed.1] at hc
      exact (digit_not_ws (hed.2 c (List.mem_of_mem_getLast? hc))).2.1

theorem digit_printable {c : Char} (h : isDigit c = true) :
    32 ≤ c.toNat ∧ c.toNat < 127 := by
  simp only [isDigit, decide_eq_true_eq] at h
  omega

theorem toHex4_printable (n : Nat) : ∀ d ∈ toHex4 n, 32 ≤ d.toNat ∧ d.toNat < 127 := by
  intro d hd
  simp only [toHex4, List.mem_cons, List.not_mem_nil, or_false] at hd
  rcases hd with rfl | rfl | rfl | rfl <;> exact hexDigit_printable _ (by omega)

theorem esc_printable (c : Char) : ∀ d ∈ escChar c, 32 ≤ d.toNat ∧ d.toNat < 127 := by
  intro d hd
  by_cases h1 : c = '"'
  · subst h1
    rw [show escChar '"' = ['\\', '"'] from rfl] at hd
    simp only [List.mem_cons, List.not_mem_nil, or_false] at hd
    rcases hd with rfl | rfl <;> decide
  by_cases h2 : c = '\\'
  · subst h2
    rw [show escChar '\\' = ['\\', '\\'] from rfl] at hd
    simp only [List.mem_cons, List.not_mem_nil, or_false] at hd
    rcases hd with rfl | rfl <;> decide
  by_cases h8 : c.toNat = 8
  · rw [show escChar c = ['\\', 'b'] from by
        unfold escChar
        rw [if_neg h1, if_neg h2, if_pos h8]] at hd
    simp only [List.mem_cons, List.not_mem_nil, or_false] at hd
    rcases hd with rfl | rfl <;> decide
  by_cases h9 : c.toNat = 9
  · rw [show escChar c = ['\\', 't'] from by
        unfold escChar
        rw [if_neg h1, if_neg h2, if_neg h8, if_pos h9]] at hd
    simp only [List.mem_cons, List.not_mem_nil, or_false] at hd
    rcases hd with rfl | rfl <;> decide
  by_cases h10 : c.toNat = 10
  · rw [show escChar c = ['\\', 'n'] from by
        unfold escChar
        rw [if_neg h1, if_neg h2, if_neg h8, if_neg h9, if_pos h10]] at hd
    simp only [List.mem_cons, List.not_mem_nil, or_false] at hd
    rcases hd with rfl | rfl <;> decide
  by_cases h12 : c.toNat = 12
  · rw [show escChar c = ['\\', 'f'] from by
        unfold escChar
        rw [if_neg h1, if_neg h2, if_neg h8, if_neg h9, if_neg h10, if_pos h12]] at hd
    simp only [List.mem_cons, List.not_mem_nil, or_false] at hd
    rcases hd with rfl | rfl <;> decide
  by_cases h13 : c.toNat = 13
  · rw [show escChar c = ['\\', 'r'] from by
        unfold escChar
        rw [if_neg h1, if_neg h2, if_neg h8, if_neg h9, if_neg h10, if_neg h12,
          if_pos h13]] at hd
    simp only [List.mem_cons, List.not_mem_nil, or_false] at hd
    rcases hd with rfl | rfl <;> decide
  by_cases hlt : c.toNat < 32
  · rw [show escChar c = '\\' :: 'u' :: toHex4 c.toNat from by
        unfold escChar
        rw [if_neg h1, if_neg h2, if_neg h8, if_neg h9, if_neg h10, if_neg h12, if_neg h13,
          if_pos hlt]] at hd
    simp only [List.mem_cons] at hd
    rcases hd with rfl | rfl | hd
    · decide
    · decide
    · exact toHex4_printable _ d hd
  by_cases h127 : c.toNat < 127
  · rw [show escChar c = [c] from by
        unfold escChar
        rw [if_neg h1, if_neg h2, if_neg h8, if_neg h9, if_neg h10, if_neg h12, if_neg h13,
          if_neg hlt, if_pos h127]] at hd
    simp only [List.mem_cons, List.not_mem_nil, or_false] at hd
    subst hd
    omega
  by_cases h64k : c.toNat < 65536
  · rw [show escChar c = '\\' :: 'u' :: toHex4 c.toNat from by
        unfold escChar
        rw [if_neg h1, if_neg h2, if_neg h8, if_neg h9, if_neg h10, if_neg h12, if_neg h13,
          if_neg hlt, if_neg h127, if_pos h64k]] at hd
    simp only [List.mem_cons] at hd
    rcases hd with rfl | rfl | hd
    · decide
    · decide
    · exact toHex4_printable _ d hd
  · rw [show escChar c =
        ('\\' :: 'u' :: toHex4 (55296 + (c.toNat - 65536) / 1024)) ++
        ('\\' :: 'u' :: toHex4 (56320 + (c.toNat - 65536) % 1024)) from by
        unfold escChar
        rw [if_neg h1, if_neg h2, if_neg h8, if_neg h9, if_neg h10, if_neg h12, if_neg h13,
          if_neg hlt, if_neg h127, if_neg h64k]] at hd
    simp only [List.mem_append, List.mem_cons] at hd
    rcases hd with (rfl | rfl | hd) | (rfl | rfl | hd)
    · decide
    · decide
    · exact toHex4_printable _ d hd
    · decide
    · decide
    · exact toHex4_printable _ d hd

theorem serStr_printable (s : String) : ∀ c ∈ serStr s, 32 ≤ c.toNat ∧ c.toNat < 127 := by
  intro c hc
  simp only [serStr, List.mem_cons, List.mem_append, List.mem_flatMap,
    List.not_mem_nil, or_false] at hc
  rcases hc with rfl | ⟨a, _, ha⟩ | rfl
  · decide
  · exact esc_printable a c ha
  · decide

theorem serNum_printable (neg : Bool) (ip fp : List Char) (ex : Option (Bool × List Char))
    (hv : numValid ip fp ex = true) :
    ∀ c ∈ serNumBody neg ip fp ex, 32 ≤ c.toNat ∧ c.toNat < 127 := by
  obtain ⟨hipd, hfpd, _⟩ := numValid_digits hv
  intro c hc
  simp only [serNumBody, List.mem_append] at hc
  rcases hc with hc | hc | hc | hc
  · cases neg
    · simp at hc
    · simp only [if_true, List.mem_cons, List.not_mem_nil, or_false] at hc
      subst hc
      decide
  · exact digit_printable (hipd c hc)
  · rcases fp with _ | ⟨d, t⟩
    · simp [serFrac] at hc
    · simp only [serFrac, List.isEmpty_cons, Bool.false_eq_true, if_false,
        List.mem_cons] at hc
      rcases hc with rfl | rfl | hc
      · decide
      · exact digit_printable (hfpd _ (List.mem_cons_self _ _))
      · exact digit_printable (hfpd c (List.mem_cons_of_mem _ hc))
  · rcases ex with _ | ⟨en, ed⟩
    · simp [serExp] at hc
    · have hedd : ∀ x ∈ ed, isDigit x = true := by
        have h := hv
        simp only [numValid, Bool.and_eq_true, decide_eq_true_eq, List.all_eq_true] at h
        exact h.2.2
      simp only [serExp, List.mem_cons, List.mem_append] at hc
      rcases hc with rfl | hc | hc
      · decide
      · cases en
        · simp at hc
        · simp only [if_true, List.mem_cons, List.not_mem_nil, or_false] at hc
          subst hc
          decide
      · exact digit_printable (hedd c hc)

theorem serArrTail_sub (l : List JVal) : ∀ c ∈ serArrTail l, c = ',' ∨ c ∈ serArrBody l := by
  cases l with
  | nil => intro c hc; exact Or.inr hc
  | cons v t =>
    intro c hc
    rcases List.mem_cons.mp hc with rfl | h
    · exact Or.inl rfl
    · exact Or.inr h

theorem serObjTail_sub (m : List (String × JVal)) :
    ∀ c ∈ serObjTail m, c = ',' ∨ c ∈ serObjBody m := by
  cases m with
  | nil => intro c hc; exact Or.inr hc
  | cons p t =>
    intro c hc
    rcases List.mem_cons.mp hc with rfl | h
    · exact Or.inl rfl
    · exact Or.inr h

theorem ser_printable_aux : ∀ n : Nat,
    (∀ v : JVal, sizeOf v ≤ n → validJ v = true →
        ∀ c ∈ serialize v, 32 ≤ c.toNat ∧ c.toNat < 127)
    ∧ (∀ l : List JVal, sizeOf l ≤ n → validL l = true →
        ∀ c ∈ serArrBody l, 32 ≤ c.toNat ∧ c.toNat < 127)
    ∧ (∀ m : List (String × JVal), sizeOf m ≤ n → validM m = true →
        ∀ c ∈ serObjBody m, 32 ≤ c.toNat ∧ c.toNat < 127) := by
  intro n
  induction n with
  | zero =>
    refine ⟨?_, ?_, ?_⟩
    · intro v h
      exact absurd h (by cases v <;> simp)
    · intro l h
      exact absurd h (by cases l <;> simp)
    · intro m h
      exact absurd h (by cases m <;> simp)
  | succ n ih =>
    obtain ⟨ihV, ihL, ihM⟩ := ih
    refine ⟨?_, ?_, ?_⟩
    · intro v hs hv c hc
      cases v with
      | null =>
        have h : ∀ x ∈ serialize JVal.null, 32 ≤ x.toNat ∧ x.toNat < 127 := by decide
        exact h c hc
      | bool b =>
        cases b
        · have h : ∀ x ∈ serialize (JVal.bool false), 32 ≤ x.toNat ∧ x.toNat < 127 := by
            decide
          exact h c hc
        · have h : ∀ x ∈ serialize (JVal.bool true), 32 ≤ x.toNat ∧ x.toNat < 127 := by
            decide
          exact h c hc
      | nanV =>
        have h : ∀ x ∈ serialize JVal.nanV, 32 ≤ x.toNat ∧ x.toNat < 127 := by decide
        exact h c hc
      | infV b =>
        cases b
        · have h : ∀ x ∈ serialize (JVal.infV false), 32 ≤ x.toNat ∧ x.toNat < 127 := by
            decide
          exact h c hc
        · have h : ∀ x ∈ serialize (JVal.infV true), 32 ≤ x.toNat ∧ x.toNat < 127 := by
            decide
          exact h c hc
      | num neg ip fp ex => exact serNum_printable neg ip fp ex hv c hc
      | str s => exact serStr_printable s c hc
      | arr l =>
        have hls : sizeOf l ≤ n := by
          have h : sizeOf (JVal.arr l) = 1 + sizeOf l := by simp
          omega
        rw [show serialize (JVal.arr l) = '[' :: serArrBody l from rfl] at hc
        rcases List.mem_cons.mp hc with rfl | h
        · decide
        · exact ihL l hls hv c h
      | obj m =>
        have hms : sizeOf m ≤ n := by
          have h : sizeOf (JVal.obj m) = 1 + sizeOf m := by simp
          omega
        have hvm : validM m = true :=
          (and_true_split (show (keysDistinct m && validM m) = true from hv)).2
        rw [show serialize (JVal.obj m) = '\x7b' :: serObjBody m from rfl] at hc
        rcases List.mem_cons.mp hc with rfl | h
        · decide
        · exact ihM m hms hvm c h
    · intro l hs hv c hc
      cases l with
      | nil =>
        have h : ∀ x ∈ serArrBody ([] : List JVal), 32 ≤ x.toNat ∧ x.toNat < 127 := by
          decide
        exact h c hc
      | cons v t =>
        obtain ⟨hv1, hvt⟩ := and_true_split (show (validJ v && validL t) = true from hv)
        have hsv : sizeOf v ≤ n ∧ sizeOf t ≤ n := by
          have h : sizeOf (v :: t) = 1 + sizeOf v + sizeOf t := by simp
          omega
        rw [show serArrBody (v :: t) = serialize v ++ serArrTail t from rfl] at hc
        rcases List.mem_append.mp hc with h | h
        · exact ihV v hsv.1 hv1 c h
        · rcases serArrTail_sub t c h with rfl | h
          · decide
          · exact ihL t hsv.2 hvt c h
    · intro m hs hv c hc
      cases m with
      | nil =>
        have h : ∀ x ∈ serObjBody ([] : List (String × JVal)),
            32 ≤ x.toNat ∧ x.toNat < 127 := by decide
        exact h c hc
      | cons p t =>
        obtain ⟨k, v⟩ := p
        obtain ⟨hv1, hvt⟩ := and_true_split (show (validJ v && validM t) = true from hv)
        have hsv : sizeOf v ≤ n ∧ sizeOf t ≤ n := by
          have h1 : sizeOf ((k, v) :: t) = 1 + sizeOf (k, v) + sizeOf t := by simp
          have h2 : sizeOf (k, v) = 1 + sizeOf k + sizeOf v := by simp
          omega
        rw [show serObjBody ((k, v) :: t)
              = serStr k ++ ':' :: (serialize v ++ serObjTail t) from rfl] at hc
        rcases List.mem_append.mp hc with h | h
        · exact serStr_printable k c h
        rcases List.mem_cons.mp h with rfl | h
        · decide
        rcases List.mem_append.mp h with h | h
        · exact ihV v hsv.1 hv1 c h
        · rcases serObjTail_sub t c h with rfl | h
          · decide
          · exact ihM t hsv.2 hvt c h

theorem ser_printable (v : JVal) (hv : validJ v = true) :
    ∀ c ∈ serialize v, 32 ≤ c.toNat ∧ c.toNat < 127 :=
  (ser_printable_aux (sizeOf v)).1 v le_rfl hv

theorem need_bound_aux : ∀ n : Nat,
    (∀ v : JVal, sizeOf v ≤ n → need v ≤ 2 * (serialize v).length + 1)
    ∧ (∀ l : List JVal, sizeOf l ≤ n →
        needL l ≤ 2 * (serArrTail l).length ∧ needL l ≤ 2 * (serArrBody l).length + 2)
    ∧ (∀ m : List (String × JVal), sizeOf m ≤ n →
        needM m ≤ 2 * (serObjTail m).length ∧ needM m ≤ 2 * (serObjBody m).length + 2) := by
  intro n
  induction n with
  | zero =>
    refine ⟨?_, ?_, ?_⟩
    · intro v h
      exact absurd h (by cases v <;> simp)
    · intro l h
      exact absurd h (by cases l <;> simp)
    · intro m h
      exact absurd h (by cases m <;> simp)
  | succ n ih =>
    obtain ⟨ihV, ihL, ihM⟩ := ih
    refine ⟨?_, ?_, ?_⟩
    · intro v hs
      cases v with
      | arr l =>
        have hls : sizeOf l ≤ n := by
          have h : sizeOf (JVal.arr l) = 1 + sizeOf l := by simp
          omega
        have hb := (ihL l hls).2
        have h1 : need (JVal.arr l) = 1 + needL l := rfl
        have h2 : (serialize (JVal.arr l)).length = 1 + (serArrBody l).length := by
          rw [show serialize (JVal.arr l) = '[' :: serArrBody l from rfl]
          simp
          omega
        omega
      | obj m =>
        have hms : sizeOf m ≤ n := by
          have h : sizeOf (JVal.obj m) = 1 + sizeOf m := by simp
          omega
        have hb := (ihM m hms).2
        have h1 : need (JVal.obj m) = 1 + needM m := rfl
        have h2 : (serialize (JVal.obj m)).length = 1 + (serObjBody m).length := by
          rw [show serialize (JVal.obj m) = '\x7b' :: serObjBody m from rfl]
          simp
          omega
        omega
      | null => simp [need]
      | bool b => cases b <;> simp [need]
      | num neg ip fp ex => simp [need]
      | str s => simp [need]
      | nanV => simp [need]
      | infV b => cases b <;> simp [need]
    · intro l hs
      cases l with
      | nil =>
        refine ⟨?_, ?_⟩ <;> simp [needL, serArrTail, serArrBody]
      | cons v t =>
        have hsv : sizeOf v ≤ n ∧ sizeOf t ≤ n := by
          have h : sizeOf (v :: t) = 1 + sizeOf v + sizeOf t := by simp
          omega
        have hv := ihV v hsv.1
        have ht := (ihL t hsv.2).1
        have h1 : needL (v :: t) = 1 + need v + needL t := rfl
        have h2 : (serArrTail (v :: t)).length
            = 1 + (serialize v).length + (serArrTail t).length := by
          simp [serArrTail]
          omega
        have h3 : (serArrBody (v :: t)).length
            = (serialize v).length + (serArrTail t).length := by
          simp [serArrBody]
        omega
    · intro m hs
      cases m with
      | nil =>
        refine ⟨?_, ?_⟩ <;> simp [needM, serObjTail, serObjBody]
      | cons p t =>
        obtain ⟨k, v⟩ := p
        have hsv : sizeOf v ≤ n ∧ sizeOf t ≤ n := by
          have h1 : sizeOf ((k, v) :: t) = 1 + sizeOf (k, v) + sizeOf t := by simp
          have h2 : sizeOf (k, v) = 1 + sizeOf k + sizeOf v := by simp
          omega
        have hv := ihV v hsv.1
        have ht := (ihM t hsv.2).1
        have h1 : needM ((k, v) :: t) = 1 + need v + needM t := rfl
        have h2 : (serObjTail ((k, v) :: t)).length
            = 2 + (serStr k).length + (serialize v).length + (serObjTail t).length := by
          simp [serObjTail]
          omega
        have h3 : (serObjBody ((k, v) :: t)).length
            = 1 + (serStr k).length + (serialize v).length + (serObjTail t).length := by
          simp [serObjBody]
          omega
        omega

theorem need_bound (v : JVal) : need v ≤ 2 * (serialize v).length + 1 :=
  (need_bound_aux (sizeOf v)).1 v le_rfl

theorem jsonLoads_serialize (v : JVal) (hv : validJ v = true) :
    jsonLoads (serialize v) = some v := by
  unfold jsonLoads
  have h := (parse_ser (2 * (serialize v).length + 2)).1 v [] hv sepOk_nil
    (by have := need_bound v; omega)
  rw [List.append_nil] at h
  rw [h]
  rfl

theorem not_prefix_of_head_ne {c : Char} (r : List Char) (h : c ≠ bq) :
    "```".data.isPrefixOf (c :: r) = false := by
  rw [show "```".data = [bq, bq, bq] from rfl]
  apply Bool.eq_false_iff.mpr
  intro htrue
  simp only [List.isPrefixOf, Bool.and_eq_true, beq_iff_eq] at htrue
  exact h htrue.1.symm

theorem pyStrip_serialize (v : JVal) (hv : validJ v = true) :
    pyStrip (serialize v) = serialize v := by
  obtain ⟨c, r, hsr, _, hws, _, _, _⟩ := serialize_head v hv
  apply pyStrip_id
  · intro d hd
    rw [hsr] at hd
    simp only [List.head?_cons, Option.some.injEq] at hd
    cases hd
    exact hws
  · exact serialize_last v hv

theorem cleanCore_serialize (v : JVal) (hv : validJ v = true) :
    cleanCore (serialize v) = serialize v := by
  obtain ⟨c, r, hsr, _, _, hbqne, _, _⟩ := serialize_head v hv
  unfold cleanCore cleanFence
  rw [pyStrip_serialize v hv, hsr, not_prefix_of_head_ne r hbqne]
  simp only [Bool.false_eq_true, if_false]
  rw [← hsr, pyStrip_serialize v hv]

theorem ser_nobreak (v : JVal) (hv : validJ v = true) :
    ∀ c ∈ serialize v, c = '\n' ∨ pyBreak c = false := by
  intro c hc
  right
  have h := ser_printable v hv c hc
  simp only [pyBreak, decide_eq_false_iff_not]
  omega

/-- C2: Response Normalizer round trip: serializing a valid CurationResult
document to minified JSON, optionally wrapping it in a single Markdown code
fence with a break-free language tag, and then normalizing
(`clean_json_text` + `parse_json_response`) returns exactly the original
document. -/
theorem curation_roundtrip (v : JVal) (tag : String)
    (hdoc : isCurationDocB v = true)
    (htag : ∀ c ∈ tag.data, pyBreak c = false) :
    parse_json_response (String.mk (serialize v)) = some v
    ∧ parse_json_response (fenceWrap tag (String.mk (serialize v))) = some v := by
  have hv : validJ v = true := by
    cases v with
    | obj dl =>
      have h := hdoc
      simp only [isCurationDocB, Bool.and_eq_true] at h
      exact h.1.1.1.1.1
    | null => simp [isCurationDocB] at hdoc
    | bool b => simp [isCurationDocB] at hdoc
    | num a b c d => simp [isCurationDocB] at hdoc
    | str s => simp [isCurationDocB] at hdoc
    | arr l => simp [isCurationDocB] at hdoc
    | nanV => simp [isCurationDocB] at hdoc
    | infV b => simp [isCurationDocB] at hdoc
  constructor
  · show jsonLoads (cleanCore (String.mk (serialize v)).data) = some v
    rw [show (String.mk (serialize v)).data = serialize v from rfl,
        cleanCore_serialize v hv, jsonLoads_serialize v hv]
  · show jsonLoads (cleanCore (fenceWrap tag (String.mk (serialize v))).data) = some v
    rw [fenceWrap_data,
        show (String.mk (serialize v)).data = serialize v from rfl,
        cleanCore_fence tag.data (serialize v) htag (ser_nobreak v hv)
          (pyStrip_serialize v hv),
        jsonLoads_serialize v hv]

/-- Witness for C2: a concrete full-schema document round-trips both bare
and wrapped in a `json`-tagged fence. -/
theorem curation_roundtrip_witness :
    isCurationDocB sampleDoc = true
    ∧ (parse_json_response (String.mk (serialize sampleDoc)) = some sampleDoc
      ∧ parse_json_response (fenceWrap "json" (String.mk (serialize sampleDoc)))
          = some sampleDoc) :=
  ⟨rfl, curation_roundtrip sampleDoc "json" rfl (by decide)⟩
